import Mathlib

/-!
Shallow embedding of the no-limit Texas Hold'em engine in `poker_engine.py`
(class `PokerEngine` and its data model), together with proofs settling the
frozen claims about chip conservation, side pots, raise validation, hand
evaluation, turn advancement, dealing, state redaction and hole-card dealing.

Modelling conventions:
* Python `int` is embedded as `Int` (chips, bets, pot, amounts); Python `//`
  and `%` on ints are floor division, embedded as `Int.fdiv` / `Int.fmod`.
* Card ranks are the `.value` integers 2..14 of the `Rank` enum, embedded as
  `Nat` (they are always positive).
* `random.sample` (the shuffle) is nondeterministic; `start_new_hand` takes
  the shuffled deck as an explicit parameter, so theorems quantify over every
  possible shuffle.
* Python list mutation through object references is embedded by updating the
  corresponding index of the `players` list; players are located by the first
  index whose `id` matches, exactly as `next(p for p in players if p.id == pid)`
  combined with `players.index(player)` behaves for distinct player ids.
* Python `print` logging has no state effect and is dropped.
* Python would raise (`IndexError`, `ZeroDivisionError`) on empty player lists
  or empty winner lists; the embedding is total there, and every theorem that
  depends on such a spot carries the hypothesis ruling the crash out.
-/

namespace Poker

inductive Suit
  | hearts
  | diamonds
  | clubs
  | spades
deriving DecidableEq, Repr

/-- A playing card; `rank` is the integer value 2..14 of the Python `Rank` enum. -/
structure Card where
  rank : Nat
  suit : Suit
deriving DecidableEq, Repr

/-- The `HandRank` enum of the source. -/
inductive HandRank
  | high_card
  | pair
  | two_pair
  | three_of_a_kind
  | straight
  | flush
  | full_house
  | four_of_a_kind
  | straight_flush
  | royal_flush
deriving DecidableEq, Repr

/-- The `.value` of each `HandRank` enum member in the source. -/
def HandRank.val : HandRank → Nat
  | .high_card => 1
  | .pair => 2
  | .two_pair => 3
  | .three_of_a_kind => 4
  | .straight => 5
  | .flush => 6
  | .full_house => 7
  | .four_of_a_kind => 8
  | .straight_flush => 9
  | .royal_flush => 10

inductive Action
  | fold
  | call
  | raise
  | check
  | all_in
deriving DecidableEq, Repr

/-- Result of `process_action`: the Python dict either has `"error"` set or
`"success": True` with a `"message"`. -/
inductive ActionResult
  | ok (message : String)
  | err (error : String)
deriving DecidableEq, Repr

/-- The `Player` dataclass. -/
structure Player where
  id : String
  name : String
  chips : Int
  cards : List Card
  current_bet : Int := 0
  total_bet : Int := 0
  is_active : Bool := true
  is_all_in : Bool := false
  position : Nat := 0
  has_acted_this_round : Bool := false
deriving DecidableEq, Repr

instance : Inhabited Player :=
  ⟨{ id := "", name := "", chips := 0, cards := [] }⟩

/-- The `GameState` dataclass. -/
structure GameState where
  players : List Player
  community_cards : List Card
  pot : Int
  current_bet : Int
  dealer_position : Nat
  current_player : Nat
  round : String
  deck : List Card
  small_blind : Int
  big_blind : Int
  hand_number : Nat
  last_raise_amount : Int := 0
  minimum_raise : Int := 0
deriving DecidableEq, Repr

/-- The engine-level attributes of class `PokerEngine`. -/
structure PokerEngine where
  small_blind : Int
  big_blind : Int
  game_state : Option GameState
  dealer_position : Nat
  hand_number : Nat
deriving DecidableEq, Repr

/-! ### Generic list helpers used by the embedding -/

/-- Ascending insertion of a `Nat` into a sorted list (for Python `sorted`). -/
def insertNat (a : Nat) : List Nat → List Nat
  | [] => [a]
  | b :: bs => if a ≤ b then a :: b :: bs else b :: insertNat a bs

/-- Ascending sort of naturals, mirroring Python `sorted` on distinct ints. -/
def sortNat : List Nat → List Nat
  | [] => []
  | a :: as => insertNat a (sortNat as)

/-- Python `sorted(ranks, reverse=True)`. -/
def sortNatDesc (l : List Nat) : List Nat :=
  (sortNat l).reverse

/-- Descending insertion of an `Int` into a sorted list. -/
def insertIntDesc (a : Int) : List Int → List Int
  | [] => [a]
  | b :: bs => if b ≤ a then a :: b :: bs else b :: insertIntDesc a bs

/-- Python `sorted(xs, reverse=True)` on ints. -/
def sortIntDesc : List Int → List Int
  | [] => []
  | a :: as => insertIntDesc a (sortIntDesc as)

/-- Python list comparison `xs > ys` on lists of ints (lexicographic,
a strict prefix is smaller). -/
def pyListGt : List Nat → List Nat → Bool
  | [], [] => false
  | [], _ :: _ => false
  | _ :: _, [] => true
  | a :: as, b :: bs => if a > b then true else if a < b then false else pyListGt as bs

/-- First offset `off`, scanning `off, off+1, ...` for `fuel` steps, where
`pred` holds: the `for offset in range(n)` search loops of the source. -/
def scanFirst (pred : Nat → Bool) : Nat → Nat → Option Nat
  | _, 0 => none
  | off, fuel + 1 => if pred off then some off else scanFirst pred (off + 1) fuel

/-- Replace the element at index `i` (Python `players[i] = p` / in-place
mutation of the i-th list element); out-of-range indices leave the list
unchanged (Python would raise `IndexError`, which never occurs in the source). -/
def setAtV : List Player → Nat → Player → List Player
  | [], _, _ => []
  | _ :: ps, 0, q => q :: ps
  | p :: ps, i + 1, q => p :: setAtV ps i q

/-- Index and value of the first player whose id matches: the combination of
`next(p for p in players if p.id == pid)` and `players.index(player)`. -/
def findPlayerIdx : List Player → String → Option (Nat × Player)
  | [], _ => none
  | p :: ps, pid =>
      if p.id == pid then some (0, p)
      else (findPlayerIdx ps pid).map (fun ip => (ip.1 + 1, ip.2))

/-- `[i for i, p in enumerate(players) if pred(p)]`. -/
def idxWhere (pred : Player → Bool) (players : List Player) : List Nat :=
  (List.range players.length).filter (fun i => pred (players.getD i default))

/-- Add `amt` chips to the first player whose id is `wid`
(`winners[0].chips += amt` through the object reference). -/
def addFirst : List Player → String → Int → List Player
  | [], _, _ => []
  | p :: ps, wid, amt =>
      if p.id == wid then { p with chips := p.chips + amt } :: ps
      else p :: addFirst ps wid amt

/-- Add `amt` chips to every player whose id occurs in `wids`
(`for winner in winners: winner.chips += amt`). -/
def addChipsTo (players : List Player) (wids : List String) (amt : Int) : List Player :=
  players.map (fun p => if wids.contains p.id then { p with chips := p.chips + amt } else p)

/-- Total chips held by the players (`sum(p.chips for p in players)`). -/
def chipSum (players : List Player) : Int :=
  (players.map (fun p => p.chips)).sum

/-! ### Hand evaluator -/

/-- Adjacent differences are all 1: the `for i in range(4)` gap check of
`_is_straight` (only called on length-5 lists). -/
def consecutive : List Nat → Bool
  | a :: b :: rest => b == a + 1 && consecutive (b :: rest)
  | _ => true

/-- `PokerEngine._is_straight`. -/
def is_straight (ranks : List Nat) : Bool :=
  let sorted_ranks := sortNat ranks.dedup
  if sorted_ranks.length ≠ 5 then false
  else if consecutive sorted_ranks then true
  else sorted_ranks == [2, 3, 4, 5, 14]

/-- Insertion, descending lexicographically by `(count, rank)`: the key of
`sorted(rank_counts.items(), key=lambda x: (x[1], x[0]), reverse=True)`. -/
def insertPairDesc (a : Nat × Nat) : List (Nat × Nat) → List (Nat × Nat)
  | [] => [a]
  | b :: bs =>
      if b.2 < a.2 || (b.2 == a.2 && b.1 ≤ a.1) then a :: b :: bs
      else b :: insertPairDesc a bs

def sortPairsDesc : List (Nat × Nat) → List (Nat × Nat)
  | [] => []
  | a :: as => insertPairDesc a (sortPairsDesc as)

/-- `Counter(ranks)` items sorted by `(count, rank)` descending. -/
def sortedRankCounts (ranks : List Nat) : List (Nat × Nat) :=
  sortPairsDesc (ranks.dedup.map (fun r => (r, ranks.count r)))

/-- `PokerEngine._evaluate_hand` on a 5-card hand.  Note `max(ranks)` /
`min(ranks)` are embedded with fold initial values 0 / 15, faithful for the
nonempty rank lists this is always called with. -/
def evaluate_hand (cards : List Card) : HandRank × List Nat :=
  let ranks := cards.map (fun c => c.rank)
  let sorted := sortedRankCounts ranks
  let values := sorted.map Prod.fst
  let counts := sorted.map Prod.snd
  let flush := (cards.map (fun c => c.suit)).dedup.length == 1
  let straight := is_straight ranks
  if straight && flush then
    if ranks.foldr min 15 == 10 then (HandRank.royal_flush, [])
    else (HandRank.straight_flush, [ranks.foldr max 0])
  else if counts == [4, 1] then (HandRank.four_of_a_kind, values)
  else if counts == [3, 2] then (HandRank.full_house, values)
  else if flush then (HandRank.flush, sortNatDesc ranks)
  else if straight then (HandRank.straight, [ranks.foldr max 0])
  else if counts == [3, 1, 1] then (HandRank.three_of_a_kind, values)
  else if counts == [2, 2, 1] then (HandRank.two_pair, values)
  else if counts == [2, 1, 1, 1] then (HandRank.pair, values)
  else (HandRank.high_card, sortNatDesc ranks)

/-- The comparison `rank.value > best.value or (== and tiebreaker > best)`. -/
def handGt (a b : HandRank × List Nat) : Bool :=
  a.1.val > b.1.val || (a.1.val == b.1.val && pyListGt a.2 b.2)

/-- `PokerEngine.get_hand_rank`: best over all 5-card combinations. -/
def get_hand_rank (cards : List Card) : HandRank × List Nat :=
  if cards.length < 5 then
    (HandRank.high_card, [(cards.map (fun c => c.rank)).foldr max 0])
  else
    (cards.sublistsLen 5).foldl
      (fun best combo =>
        let r := evaluate_hand combo
        if handGt r best then r else best)
      (HandRank.high_card, [])

/-! ### Dealing -/

/-- `PokerEngine.deal_cards`: Python slices `deck[:n]`, `deck[n:]`. -/
def deal_cards (deck : List Card) (num_cards : Nat) : List Card × List Card :=
  (deck.take num_cards, deck.drop num_cards)

/-- `PokerEngine._deal_community_cards`. -/
def deal_community_cards (g : GameState) (num_cards : Nat) : GameState :=
  let dealt := deal_cards g.deck num_cards
  { g with community_cards := g.community_cards ++ dealt.1, deck := dealt.2 }

/-- `PokerEngine._deal_remaining_board_for_visuals`.  (Python computes
`5 - len(community)` as an int and only deals when it is positive; truncated
`Nat` subtraction gives the same guard.) -/
def deal_remaining_board_for_visuals (g : GameState) : GameState :=
  let remaining := 5 - g.community_cards.length
  if remaining > 0 then deal_community_cards g remaining else g

/-- One pass of `PokerEngine._deal_hole_cards`: give one card to each player
who `is_active and chips > 0`, threading the deck left to right. -/
def dealOneEach : List Player → List Card → List Player × List Card
  | [], deck => ([], deck)
  | p :: ps, deck =>
      if p.is_active && decide (0 < p.chips) then
        let dealt := deal_cards deck 1
        let rest := dealOneEach ps dealt.2
        ({ p with cards := p.cards ++ dealt.1 } :: rest.1, rest.2)
      else
        let rest := dealOneEach ps deck
        (p :: rest.1, rest.2)

/-- `PokerEngine._deal_hole_cards` (two one-card passes). -/
def deal_hole_cards (g : GameState) : GameState :=
  let pass1 := dealOneEach g.players g.deck
  let pass2 := dealOneEach pass1.1 pass1.2
  { g with players := pass2.1, deck := pass2.2 }

/-! ### Showdown evaluation and pot distribution -/

/-- `PokerEngine._evaluate_hands_for_pot`: fold the comparison loop, keeping
`(best_rank, best_tiebreaker, winners)`. -/
def evaluate_hands_for_pot (community : List Card) (players : List Player) : List Player :=
  match players with
  | [] => []
  | [p] => [p]
  | _ =>
      let final := players.foldl
        (fun acc player =>
          let r := get_hand_rank (player.cards ++ community)
          if r.1.val > acc.1.val then (r.1, r.2, [player])
          else if r.1.val == acc.1.val then
            if pyListGt r.2 acc.2.1 then (acc.1, r.2, [player])
            else if r.2 == acc.2.1 then (acc.1, acc.2.1, acc.2.2 ++ [player])
            else acc
          else acc)
        ((HandRank.high_card, [], []) : HandRank × List Nat × List Player)
      if final.2.2.isEmpty then players else final.2.2

/-- `PokerEngine._distribute_simple_pot` (only updates `players`; the caller
resets the pot).  Python `//` and `%` are floor division/modulo, `Int.fdiv` /
`Int.fmod` here; `len(winners) == 0` would raise `ZeroDivisionError` in Python
and is ruled out by hypotheses wherever a theorem relies on this function. -/
def distribute_simple_pot (g : GameState) (active_players : List Player) : GameState :=
  let winners := evaluate_hands_for_pot g.community_cards active_players
  let pot_per_winner := g.pot.fdiv winners.length
  let remainder := g.pot.fmod winners.length
  let players1 := addChipsTo g.players (winners.map (fun w => w.id)) pot_per_winner
  let players2 :=
    if remainder > 0 && !winners.isEmpty then
      addFirst players1 ((winners.headD default).id) remainder
    else players1
  { g with players := players2 }

/-- Body of the per-level loop of `PokerEngine._distribute_side_pots`: state is
`(previous_level, total_distributed, players)`. -/
def sidePotLevelStep (community : List Card) (active_players : List Player)
    (acc : Int × Int × List Player) (level : Int) : Int × Int × List Player :=
  let previous_level := acc.1
  let eligible_players := active_players.filter (fun p => level ≤ p.total_bet)
  let pot_at_level :=
    (eligible_players.map (fun p =>
      min (level - previous_level) (p.total_bet - previous_level))).sum
  if pot_at_level > 0 && !eligible_players.isEmpty then
    let winners := evaluate_hands_for_pot community eligible_players
    let pot_per_winner := pot_at_level.fdiv winners.length
    let remainder := pot_at_level.fmod winners.length
    let players1 := addChipsTo acc.2.2 (winners.map (fun w => w.id)) pot_per_winner
    let players2 :=
      if remainder > 0 && !winners.isEmpty then
        addFirst players1 ((winners.headD default).id) remainder
      else players1
    (level, acc.2.1 + pot_at_level, players2)
  else (level, acc.2.1, acc.2.2)

/-- `PokerEngine._distribute_side_pots` (only updates `players`; the caller
resets the pot; the two mismatch `print`s have no state effect). -/
def distribute_side_pots (g : GameState) (active_players : List Player)
    (all_in_amounts : List Int) : GameState :=
  let levels := sortIntDesc all_in_amounts.dedup
  let looped := levels.foldl (sidePotLevelStep g.community_cards active_players)
    ((0 : Int), (0 : Int), g.players)
  let total_distributed := looped.2.1
  let remaining := g.pot - total_distributed
  if remaining > 0 then
    let winners := evaluate_hands_for_pot g.community_cards active_players
    let pot_per_winner := remaining.fdiv winners.length
    let remainder := remaining.fmod winners.length
    let players1 := addChipsTo looped.2.2 (winners.map (fun w => w.id)) pot_per_winner
    let players2 :=
      if remainder > 0 && !winners.isEmpty then
        addFirst players1 ((winners.headD default).id) remainder
      else players1
    { g with players := players2 }
  else { g with players := looped.2.2 }

/-- The pot-distribution part of `PokerEngine._determine_winner`: lone winner
takes all, otherwise side pots when distinct positive `total_bet` levels
exist, else the simple split; the pot is reset to 0. -/
def payout_core (g : GameState) (active_players : List Player) : GameState :=
  if active_players.length == 1 then
    { g with
      players := addFirst g.players (active_players.headD default).id g.pot
      pot := 0 }
  else
    let all_in_amounts :=
      sortIntDesc (((active_players.filter (fun p => 0 < p.total_bet)).map
        (fun p => p.total_bet)).dedup)
    let g2 :=
      if all_in_amounts.length > 1 then
        distribute_side_pots g active_players all_in_amounts
      else
        distribute_simple_pot g active_players
    { g2 with pot := 0 }

/-- The chip-distribution verification at the end of `_determine_winner`,
which patches any discrepancy onto the first active player. -/
def distribution_fixup (expected_total : Int) (active_players : List Player)
    (g1 : GameState) : GameState :=
  let total_chips_after := chipSum g1.players
  if total_chips_after ≠ expected_total then
    if !active_players.isEmpty then
      { g1 with players := (addFirst g1.players (active_players.headD default).id
          (expected_total - total_chips_after)) }
    else g1
  else g1

/-- `PokerEngine._determine_winner`. -/
def determine_winner (g : GameState) : GameState :=
  let active_players := g.players.filter (fun p => p.is_active)
  distribution_fixup (chipSum g.players + g.pot) active_players
    (payout_core g active_players)

/-! ### Turn and round management -/

/-- The eligibility filter of `PokerEngine._next_player`: active, not all-in,
has chips, and has not matched the table bet. -/
def eligibleIdx (g : GameState) : List Nat :=
  idxWhere (fun p => p.is_active && !p.is_all_in && decide (0 < p.chips) &&
    decide (p.current_bet < g.current_bet)) g.players

/-- The index `PokerEngine._next_player` moves the turn pointer to.  The
Python fallback code after the scan loop is unreachable when `eligible` is
nonempty, because the scan visits every index; it therefore keeps the current
pointer. -/
def next_player_pos (g : GameState) : Nat :=
  let eligible := eligibleIdx g
  if eligible.isEmpty then g.current_player
  else
    let n := g.players.length
    let start := (g.current_player + 1) % n
    match scanFirst (fun off => eligible.contains ((start + off) % n)) 0 n with
    | some off => (start + off) % n
    | none => g.current_player

/-- `PokerEngine._next_player`. -/
def next_player (g : GameState) : GameState :=
  { g with current_player := next_player_pos g }

/-- `PokerEngine._is_round_complete`. -/
def is_round_complete (g : GameState) : Bool :=
  let active_players := g.players.filter (fun p => p.is_active)
  if active_players.length ≤ 1 then true
  else
    let can_act := active_players.filter (fun p => !p.is_all_in && decide (0 < p.chips))
    if can_act.isEmpty then true
    else if g.current_bet == 0 then
      can_act.all (fun p => p.has_acted_this_round)
    else
      can_act.all (fun p => p.has_acted_this_round && decide (g.current_bet ≤ p.current_bet))

/-- The index `PokerEngine._set_postflop_action_start` points the turn at. -/
def postflop_start_pos (g : GameState) : Nat :=
  let active_indices :=
    idxWhere (fun p => p.is_active && (!p.is_all_in || decide (0 < p.chips))) g.players
  if active_indices.isEmpty then g.current_player
  else
    let n := g.players.length
    let start := (g.dealer_position + 1) % n
    match scanFirst (fun off => active_indices.contains ((start + off) % n)) 0 n with
    | some off => (start + off) % n
    | none => active_indices.headD 0

/-- `PokerEngine._set_postflop_action_start`. -/
def set_postflop_action_start (g : GameState) : GameState :=
  { g with current_player := postflop_start_pos g }

/-- The per-round reset at the start of the two-or-more-active-players branch
of `_advance_round`: clear per-round bets and acted flags, reset the table bet
and minimum raise.  The engine attributes `self.big_blind` / `self.small_blind`
equal the copies stored in the state by `start_new_hand`, so the minimum-raise
reset reads them from the state. -/
def round_reset (g : GameState) : GameState :=
  { g with
    players := g.players.map (fun p =>
      { p with current_bet := 0, has_acted_this_round := false })
    current_bet := 0
    last_raise_amount := 0
    minimum_raise := g.big_blind - g.small_blind }

/-- The two-or-more-active-players branch of `PokerEngine._advance_round`:
`round_reset`, the (vacuous) pot-integrity check, then deal the next street
and set first-to-act, or go to showdown after the river. -/
def advance_round_reset_branch (g : GameState) : GameState :=
  let pot_before := g.pot
  let g1 := round_reset g
  let g2 := if g1.pot ≠ pot_before then { g1 with pot := pot_before } else g1
  if g2.round == "preflop" then
    set_postflop_action_start (deal_community_cards { g2 with round := "flop" } 3)
  else if g2.round == "flop" then
    set_postflop_action_start (deal_community_cards { g2 with round := "turn" } 1)
  else if g2.round == "turn" then
    set_postflop_action_start (deal_community_cards { g2 with round := "river" } 1)
  else if g2.round == "river" then
    determine_winner { g2 with round := "showdown" }
  else g2

/-- `PokerEngine._advance_round`. -/
def advance_round (g : GameState) : GameState :=
  let active_players := g.players.filter (fun p => p.is_active)
  if active_players.length ≤ 1 then
    determine_winner { deal_remaining_board_for_visuals g with round := "showdown" }
  else advance_round_reset_branch g

/-! ### Action processing -/

/-- The `has_acted_this_round` reset applied to the other players after a
raise (also used by the all-in raise paths); reads the already-updated table
`current_bet` from `g`. -/
def resetOthers (g : GameState) (pid : String) : GameState :=
  { g with players := g.players.map (fun p =>
      if p.id ≠ pid && p.is_active && !p.is_all_in && decide (0 < p.chips) &&
          decide (p.current_bet < g.current_bet) then
        { p with has_acted_this_round := false }
      else p) }

/-- The raise body of `process_action` run with the validated/converted target
`amt`: both the auto-all-in path (`chips < raise_amount`) and the normal path. -/
def raise_with (g : GameState) (player_id : String) (idx : Nat) (player : Player)
    (amt : Int) : ActionResult × GameState :=
  let raise_amount := amt - player.current_bet
  if player.chips < raise_amount then
    let all_in_amount := player.chips
    let old_current_bet := g.current_bet
    let p1 := { player with
      chips := 0
      current_bet := player.current_bet + all_in_amount
      total_bet := player.total_bet + all_in_amount
      is_all_in := true
      has_acted_this_round := true }
    let g1 := { g with players := setAtV g.players idx p1, pot := g.pot + all_in_amount }
    if p1.current_bet > old_current_bet then
      let raise_delta := p1.current_bet - old_current_bet
      let g2 := { g1 with
        current_bet := p1.current_bet
        last_raise_amount := raise_delta
        minimum_raise := raise_delta }
      (.ok (player.name ++ " raised all-in to " ++ toString p1.current_bet),
       resetOthers g2 player_id)
    else
      (.ok (player.name ++ " raised all-in to " ++ toString p1.current_bet), g1)
  else
    let old_current_bet := g.current_bet
    let p1 := { player with
      chips := player.chips - raise_amount
      current_bet := amt
      total_bet := player.total_bet + raise_amount
      has_acted_this_round := true }
    let raise_delta := amt - old_current_bet
    let g1 := { g with
      players := setAtV g.players idx p1
      pot := g.pot + raise_amount
      current_bet := amt
      last_raise_amount := raise_delta
      minimum_raise := raise_delta }
    (.ok (player.name ++ " raised to " ++ toString amt), resetOthers g1 player_id)

/-- The effect of one action on the state, up to (but not including) the final
`_next_player` / round-completion step of `process_action`; returns the error
result unchanged-state pair for the in-branch validation failures. -/
def apply_action (g : GameState) (player_id : String) (idx : Nat) (player : Player)
    (a : Action) (amount : Int) : ActionResult × GameState :=
  let amount_to_call := g.current_bet - player.current_bet
  match a with
  | .fold =>
      (.ok (player.name ++ " folded"),
       { g with players := (setAtV g.players idx
          { player with is_active := false, has_acted_this_round := true }) })
  | .call =>
      if player.chips < amount_to_call then
        let call_amount := player.chips
        (.ok (player.name ++ " called all-in with " ++ toString call_amount),
         { g with
           players := (setAtV g.players idx
            { player with
              chips := 0
              current_bet := player.current_bet + call_amount
              total_bet := player.total_bet + call_amount
              is_all_in := true
              has_acted_this_round := true })
           pot := g.pot + call_amount })
      else
        let call_amount := amount_to_call
        (.ok (player.name ++ " called " ++ toString call_amount),
         { g with
           players := (setAtV g.players idx
            { player with
              chips := player.chips - call_amount
              current_bet := player.current_bet + call_amount
              total_bet := player.total_bet + call_amount
              has_acted_this_round := true })
           pot := g.pot + call_amount })
  | .raise =>
      if amount ≤ player.current_bet then
        (.err ("Raise amount " ++ toString amount ++ " must be greater than current bet "
            ++ toString player.current_bet), g)
      else
        let max_affordable := player.current_bet + player.chips
        let amount1 := if amount > max_affordable then max_affordable else amount
        let minimum_raise_to := g.current_bet + g.minimum_raise
        if amount1 < minimum_raise_to && amount1 < max_affordable then
          if 0 < player.chips then
            raise_with g player_id idx player max_affordable
          else
            (.err ("Raise to " ++ toString amount1 ++ " is below minimum raise of "
                ++ toString minimum_raise_to ++ " and player has no chips"), g)
        else
          raise_with g player_id idx player amount1
  | .check =>
      if player.current_bet < g.current_bet then
        (.err "Cannot check when there's a bet to call. Use 'call' or 'fold'", g)
      else
        (.ok (player.name ++ " checked"),
         { g with players := (setAtV g.players idx
            { player with has_acted_this_round := true }) })
  | .all_in =>
      let all_in_amount := player.chips
      let old_current_bet := g.current_bet
      let p1 := { player with
        chips := 0
        current_bet := player.current_bet + all_in_amount
        total_bet := player.total_bet + all_in_amount
        is_all_in := true
        has_acted_this_round := true }
      let g1 := { g with players := setAtV g.players idx p1, pot := g.pot + all_in_amount }
      if p1.current_bet > old_current_bet then
        let raise_delta := p1.current_bet - old_current_bet
        let g2 := { g1 with
          current_bet := p1.current_bet
          last_raise_amount := raise_delta
          minimum_raise := raise_delta }
        (.ok (player.name ++ " went all-in with " ++ toString all_in_amount),
         resetOthers g2 player_id)
      else
        (.ok (player.name ++ " went all-in with " ++ toString all_in_amount), g1)

/-- `PokerEngine.process_action` on a live `GameState` (the engine-level
`if not self.game_state` guard is `engine_process_action` below). -/
def process_action (g : GameState) (player_id : String) (a : Action)
    (amount : Int := 0) : ActionResult × GameState :=
  match findPlayerIdx g.players player_id with
  | none => (.err "Player not found", g)
  | some (idx, player) =>
      if idx ≠ g.current_player then (.err "Not your turn", g)
      else if !player.is_active then (.err "Player has already folded", g)
      else if player.is_all_in then (.err "Player is all-in, cannot act", g)
      else if player.chips ≤ 0 then (.err "Player has no chips", g)
      else
        match apply_action g player_id idx player a amount with
        | (.err e, _) => (.err e, g)
        | (.ok m, g1) =>
            let g2 := next_player g1
            let g3 := if is_round_complete g2 then advance_round g2 else g2
            (.ok m, g3)

/-- `PokerEngine.process_action` including the engine-level
`if not self.game_state` check. -/
def engine_process_action (e : PokerEngine) (player_id : String) (a : Action)
    (amount : Int := 0) : ActionResult × PokerEngine :=
  match e.game_state with
  | none => (.err "No active game", e)
  | some g =>
      let rg := process_action g player_id a amount
      (rg.1, { e with game_state := some rg.2 })

/-! ### Hand setup -/

/-- One blind post: deduct `min(blind, chips)` from the player at `pos`, set
their bets, mark all-in when emptied, add the amount to the pot; returns the
posted amount. -/
def postOneBlind (g : GameState) (pos : Nat) (blind : Int) : Int × GameState :=
  let p := g.players.getD pos default
  let amt := min blind p.chips
  let p1 := { p with
    chips := p.chips - amt
    current_bet := amt
    total_bet := amt
    is_all_in := if p.chips - amt == 0 then true else p.is_all_in }
  (amt, { g with players := setAtV g.players pos p1, pot := g.pot + amt })

/-- The blind-posting part of `PokerEngine._post_blinds`: both blinds plus the
table bet / raise-tracking updates, without the UTG pointer step. -/
def post_blinds_core (g : GameState) : GameState :=
  let n := g.players.length
  let sb_pos := (g.dealer_position + 1) % n
  let bb_pos := (g.dealer_position + 2) % n
  let sb := postOneBlind g sb_pos g.small_blind
  let bb := postOneBlind sb.2 bb_pos g.big_blind
  { bb.2 with
    current_bet := bb.1
    last_raise_amount := bb.1 - sb.1
    minimum_raise := bb.1 - sb.1 }

/-- `PokerEngine._post_blinds`. -/
def post_blinds (g : GameState) : GameState :=
  let n := g.players.length
  let bb_pos := (g.dealer_position + 2) % n
  let g3 := post_blinds_core g
  let utg_pos := (bb_pos + 1) % n
  let active_indices := idxWhere (fun p => p.is_active && decide (0 < p.chips)) g3.players
  if active_indices.contains utg_pos then { g3 with current_player := utg_pos }
  else if !active_indices.isEmpty then { g3 with current_player := active_indices.headD 0 }
  else g3

/-- The player-construction loop of `start_new_hand`: fresh players with chips
taken from the previous hand's state when `preserve_chips` (Python builds the
`player_chips` dict by iterating the old players, so a duplicated id keeps the
last entry — hence the `reverse`). -/
def build_players (e : PokerEngine) (player_ids player_names : List String)
    (starting_chips : Int) (preserve_chips : Bool) : List Player :=
  ((player_ids.zip player_names).zip (List.range (player_ids.zip player_names).length)).map
    (fun pni =>
      let chips :=
        if preserve_chips then
          match e.game_state with
          | some gs =>
              ((gs.players.reverse.find? (fun p => p.id == pni.1.1)).map
                (fun p => p.chips)).getD starting_chips
          | none => starting_chips
        else starting_chips
      { id := pni.1.1
        name := pni.1.2
        chips := chips
        cards := []
        position := pni.2 })

/-- `PokerEngine.start_new_hand`; the shuffled deck is a parameter (the Python
`random.sample` result), so results hold for every possible shuffle. -/
def start_new_hand (e : PokerEngine) (deck : List Card)
    (player_ids player_names : List String) (starting_chips : Int := 1000)
    (preserve_chips : Bool := false) : PokerEngine × GameState :=
  let hand_number := e.hand_number + 1
  let players := build_players e player_ids player_names starting_chips preserve_chips
  let dealer :=
    if hand_number > 1 && 0 < players.length then (e.dealer_position + 1) % players.length
    else if hand_number == 1 then 0
    else e.dealer_position
  let g0 : GameState := {
    players := players
    community_cards := []
    pot := 0
    current_bet := 0
    dealer_position := dealer
    current_player := 0
    round := "preflop"
    deck := deck
    small_blind := e.small_blind
    big_blind := e.big_blind
    hand_number := hand_number
    last_raise_amount := 0
    minimum_raise := e.big_blind - e.small_blind }
  let g1 := deal_hole_cards g0
  let g2 := post_blinds g1
  ({ e with game_state := some g2, dealer_position := dealer, hand_number := hand_number }, g2)

/-! ### Per-player redacted view -/

/-- `Card.__str__`. -/
def cardStr (c : Card) : String :=
  (match c.rank with
   | 11 => "J"
   | 12 => "Q"
   | 13 => "K"
   | 14 => "A"
   | v => toString v) ++
  (match c.suit with
   | .hearts => "♥"
   | .diamonds => "♦"
   | .clubs => "♣"
   | .spades => "♠")

/-- The per-player entries of the `"players"` list in the view dict. -/
structure PublicPlayerInfo where
  name : String
  chips : Int
  current_bet : Int
  is_active : Bool
  is_all_in : Bool
deriving DecidableEq, Repr

/-- The dict returned by `get_game_state_for_player`. -/
structure PlayerView where
  hand_number : Nat
  round : String
  pot : Int
  current_bet : Int
  community_cards : List String
  your_cards : List String
  your_chips : Int
  your_current_bet : Int
  your_total_bet : Int
  is_your_turn : Bool
  players : List PublicPlayerInfo
deriving DecidableEq, Repr

/-- One entry of the `"players"` list in the view dict. -/
def publicInfo (p : Player) : PublicPlayerInfo :=
  { name := p.name
    chips := p.chips
    current_bet := p.current_bet
    is_active := p.is_active
    is_all_in := p.is_all_in }

/-- `PokerEngine.get_game_state_for_player` on a live state (`none` is the
`"Player not found"` error dict). -/
def get_game_state_for_player (g : GameState) (player_id : String) : Option PlayerView :=
  match findPlayerIdx g.players player_id with
  | none => none
  | some (idx, player) => some {
      hand_number := g.hand_number
      round := g.round
      pot := g.pot
      current_bet := g.current_bet
      community_cards := g.community_cards.map cardStr
      your_cards := player.cards.map cardStr
      your_chips := player.chips
      your_current_bet := player.current_bet
      your_total_bet := player.total_bet
      is_your_turn := g.current_player == idx
      players := g.players.map publicInfo }

/-! ### Basic lemmas about the list helpers -/

theorem headD_mem {α : Type} [Inhabited α] {l : List α} (h : l ≠ []) :
    l.headD default ∈ l := by
  cases l with
  | nil => exact absurd rfl h
  | cons a as => simp [List.headD]

theorem chipSum_cons (p : Player) (l : List Player) :
    chipSum (p :: l) = p.chips + chipSum l := by
  simp [chipSum]

theorem chipSum_map_of_chips_eq (f : Player → Player)
    (hf : ∀ p, (f p).chips = p.chips) (l : List Player) :
    chipSum (l.map f) = chipSum l := by
  induction l with
  | nil => rfl
  | cons p ps ih => simp [chipSum_cons, hf, ih]

theorem map_map_of_field_eq {α : Type} (f : Player → α) (φ : Player → Player)
    (hf : ∀ p, f (φ p) = f p) (l : List Player) :
    (l.map φ).map f = l.map f := by
  induction l with
  | nil => rfl
  | cons p ps ih => simp [hf, ih]

theorem length_setAtV (l : List Player) (i : Nat) (q : Player) :
    (setAtV l i q).length = l.length := by
  induction l generalizing i with
  | nil => rfl
  | cons p ps ih =>
      cases i with
      | zero => rfl
      | succ j => simp [setAtV, ih]

theorem chipSum_setAtV (l : List Player) (i : Nat) (q : Player)
    (hi : i < l.length) :
    chipSum (setAtV l i q) = chipSum l + (q.chips - (l.getD i default).chips) := by
  induction l generalizing i with
  | nil => simp at hi
  | cons p ps ih =>
      cases i with
      | zero => simp [setAtV, chipSum_cons]; ring
      | succ j =>
          have hj : j < ps.length := by simpa using hi
          simp [setAtV, chipSum_cons, ih j hj, List.getD]
          ring

theorem findPlayerIdx_spec (pid : String) :
    ∀ (l : List Player) (i : Nat) (p : Player), findPlayerIdx l pid = some (i, p) →
      i < l.length ∧ l.getD i default = p ∧ p.id = pid := by
  intro l
  induction l with
  | nil => intro i p h; simp [findPlayerIdx] at h
  | cons q qs ih =>
      intro i p h
      by_cases hq : (q.id == pid)
      · rw [findPlayerIdx, if_pos hq] at h
        have h' := Option.some.inj h
        have hi : i = 0 := (congrArg Prod.fst h').symm
        have hp : p = q := (congrArg Prod.snd h').symm
        subst hi
        subst hp
        exact ⟨Nat.succ_pos _, rfl, by simpa using hq⟩
      · rw [findPlayerIdx, if_neg hq] at h
        cases hrec : findPlayerIdx qs pid with
        | none => rw [hrec] at h; simp at h
        | some jp =>
            rw [hrec] at h
            simp only [Option.map_some'] at h
            have h' := Option.some.inj h
            have hi : jp.1 + 1 = i := congrArg Prod.fst h'
            have hp : jp.2 = p := congrArg Prod.snd h'
            obtain ⟨h1, h2, h3⟩ := ih jp.1 jp.2 (by rw [hrec])
            subst hp
            refine ⟨by simp; omega, ?_, h3⟩
            rw [← hi]
            simpa [List.getD] using h2

theorem chipSum_addFirst (l : List Player) (wid : String) (amt : Int)
    (h : wid ∈ l.map (fun p => p.id)) :
    chipSum (addFirst l wid amt) = chipSum l + amt := by
  induction l with
  | nil => simp at h
  | cons p ps ih =>
      by_cases hp : p.id = wid
      · simp [addFirst, hp, chipSum_cons]; ring
      · have hp' : (p.id == wid) = false := by simpa using hp
        have hmem : wid ∈ ps.map (fun p => p.id) := by
          rcases (by simpa using h) with h1 | h2
          · exact absurd h1.symm hp
          · simpa using h2
        simp [addFirst, hp', chipSum_cons, ih hmem]
        ring

theorem map_addFirst {α : Type} (f : Player → α) (l : List Player) (wid : String) (amt : Int)
    (hf : ∀ p, f { p with chips := p.chips + amt } = f p) :
    (addFirst l wid amt).map f = l.map f := by
  induction l with
  | nil => rfl
  | cons p ps ih =>
      by_cases hp : (p.id == wid)
      · simp [addFirst, hp, hf]
      · simp [addFirst, hp, hf, ih]

theorem map_id_addFirst (l : List Player) (wid : String) (amt : Int) :
    (addFirst l wid amt).map (fun p => p.id) = l.map (fun p => p.id) :=
  map_addFirst _ l wid amt (fun _ => rfl)

theorem map_act_addFirst (l : List Player) (wid : String) (amt : Int) :
    (addFirst l wid amt).map (fun p => p.is_active) = l.map (fun p => p.is_active) :=
  map_addFirst _ l wid amt (fun _ => rfl)

theorem map_id_addChipsTo (l : List Player) (wids : List String) (amt : Int) :
    (addChipsTo l wids amt).map (fun p => p.id) = l.map (fun p => p.id) := by
  unfold addChipsTo
  refine map_map_of_field_eq _ _ (fun p => ?_) l
  by_cases h : p.id ∈ wids <;> simp [h]

theorem map_act_addChipsTo (l : List Player) (wids : List String) (amt : Int) :
    (addChipsTo l wids amt).map (fun p => p.is_active) = l.map (fun p => p.is_active) := by
  unfold addChipsTo
  refine map_map_of_field_eq _ _ (fun p => ?_) l
  by_cases h : p.id ∈ wids <;> simp [h]

/-! ### Pot distribution preserves ids and activity flags -/

theorem maps_sidePotLevelStep (comm : List Card) (act : List Player)
    (acc : Int × Int × List Player) (level : Int) :
    ((sidePotLevelStep comm act acc level).2.2).map (fun p => p.id)
        = acc.2.2.map (fun p => p.id) ∧
      ((sidePotLevelStep comm act acc level).2.2).map (fun p => p.is_active)
        = acc.2.2.map (fun p => p.is_active) := by
  unfold sidePotLevelStep
  dsimp only
  split
  · split
    · constructor
      · rw [map_id_addFirst, map_id_addChipsTo]
      · rw [map_act_addFirst, map_act_addChipsTo]
    · constructor
      · rw [map_id_addChipsTo]
      · rw [map_act_addChipsTo]
  · exact ⟨rfl, rfl⟩

theorem maps_sidePotFold (comm : List Card) (act : List Player) :
    ∀ (levels : List Int) (acc : Int × Int × List Player),
      ((levels.foldl (sidePotLevelStep comm act) acc).2.2).map (fun p => p.id)
          = acc.2.2.map (fun p => p.id) ∧
        ((levels.foldl (sidePotLevelStep comm act) acc).2.2).map (fun p => p.is_active)
          = acc.2.2.map (fun p => p.is_active) := by
  intro levels
  induction levels with
  | nil => intro acc; exact ⟨rfl, rfl⟩
  | cons lv ls ih =>
      intro acc
      have hstep := maps_sidePotLevelStep comm act acc lv
      have hrest := ih (sidePotLevelStep comm act acc lv)
      exact ⟨hrest.1.trans hstep.1, hrest.2.trans hstep.2⟩

theorem distribute_side_pots_spec (g : GameState) (act : List Player) (lv : List Int) :
    (distribute_side_pots g act lv).players.map (fun p => p.id)
        = g.players.map (fun p => p.id) ∧
      (distribute_side_pots g act lv).players.map (fun p => p.is_active)
        = g.players.map (fun p => p.is_active) ∧
      (distribute_side_pots g act lv).pot = g.pot ∧
      (distribute_side_pots g act lv).round = g.round := by
  unfold distribute_side_pots
  dsimp only
  have hfold := maps_sidePotFold g.community_cards act (sortIntDesc lv.dedup)
    ((0 : Int), (0 : Int), g.players)
  split
  · split
    · refine ⟨?_, ?_, rfl, rfl⟩
      · rw [map_id_addFirst, map_id_addChipsTo]; exact hfold.1
      · rw [map_act_addFirst, map_act_addChipsTo]; exact hfold.2
    · refine ⟨?_, ?_, rfl, rfl⟩
      · rw [map_id_addChipsTo]; exact hfold.1
      · rw [map_act_addChipsTo]; exact hfold.2
  · exact ⟨hfold.1, hfold.2, rfl, rfl⟩

theorem distribute_simple_pot_spec (g : GameState) (act : List Player) :
    (distribute_simple_pot g act).players.map (fun p => p.id)
        = g.players.map (fun p => p.id) ∧
      (distribute_simple_pot g act).players.map (fun p => p.is_active)
        = g.players.map (fun p => p.is_active) ∧
      (distribute_simple_pot g act).pot = g.pot ∧
      (distribute_simple_pot g act).round = g.round := by
  unfold distribute_simple_pot
  dsimp only
  split
  · refine ⟨?_, ?_, rfl, rfl⟩
    · rw [map_id_addFirst, map_id_addChipsTo]
    · rw [map_act_addFirst, map_act_addChipsTo]
  · exact ⟨map_id_addChipsTo _ _ _, map_act_addChipsTo _ _ _, rfl, rfl⟩

theorem payout_core_spec (g : GameState) (act : List Player) :
    (payout_core g act).players.map (fun p => p.id) = g.players.map (fun p => p.id) ∧
      (payout_core g act).players.map (fun p => p.is_active)
        = g.players.map (fun p => p.is_active) ∧
      (payout_core g act).pot = 0 ∧
      (payout_core g act).round = g.round := by
  unfold payout_core
  dsimp only
  split
  · exact ⟨map_id_addFirst _ _ _, map_act_addFirst _ _ _, rfl, rfl⟩
  · split
    · have h := distribute_side_pots_spec g act
        (sortIntDesc (((act.filter (fun p => 0 < p.total_bet)).map
          (fun p => p.total_bet)).dedup))
      exact ⟨h.1, h.2.1, rfl, h.2.2.2⟩
    · have h := distribute_simple_pot_spec g act
      exact ⟨h.1, h.2.1, rfl, h.2.2.2⟩

theorem distribution_fixup_spec (e : Int) (act : List Player) (g1 : GameState) :
    (distribution_fixup e act g1).players.map (fun p => p.id)
        = g1.players.map (fun p => p.id) ∧
      (distribution_fixup e act g1).players.map (fun p => p.is_active)
        = g1.players.map (fun p => p.is_active) ∧
      (distribution_fixup e act g1).pot = g1.pot ∧
      (distribution_fixup e act g1).round = g1.round := by
  unfold distribution_fixup
  dsimp only
  split
  · split
    · exact ⟨map_id_addFirst _ _ _, map_act_addFirst _ _ _, rfl, rfl⟩
    · exact ⟨rfl, rfl, rfl, rfl⟩
  · exact ⟨rfl, rfl, rfl, rfl⟩

theorem distribution_fixup_chipSum (e : Int) (act : List Player) (g1 : GameState)
    (hne : act ≠ [])
    (hid : (act.headD default).id ∈ g1.players.map (fun p => p.id)) :
    chipSum (distribution_fixup e act g1).players = e := by
  unfold distribution_fixup
  dsimp only
  by_cases h : chipSum g1.players = e
  · rw [if_neg (by simpa using h)]
    exact h
  · rw [if_pos (by simpa using h)]
    rw [if_pos (by simpa using hne)]
    simp only
    rw [chipSum_addFirst _ _ _ hid]
    ring

/-! ### `determine_winner` conserves chips and zeroes the pot -/

theorem determine_winner_spec (g : GameState) :
    (determine_winner g).players.map (fun p => p.id) = g.players.map (fun p => p.id) ∧
      (determine_winner g).players.map (fun p => p.is_active)
        = g.players.map (fun p => p.is_active) ∧
      (determine_winner g).pot = 0 ∧
      (determine_winner g).round = g.round := by
  unfold determine_winner
  dsimp only
  have hfix := distribution_fixup_spec (chipSum g.players + g.pot)
    (g.players.filter (fun p => p.is_active))
    (payout_core g (g.players.filter (fun p => p.is_active)))
  have hcore := payout_core_spec g (g.players.filter (fun p => p.is_active))
  exact ⟨hfix.1.trans hcore.1, hfix.2.1.trans hcore.2.1,
    hfix.2.2.1.trans hcore.2.2.1, hfix.2.2.2.trans hcore.2.2.2⟩

theorem determine_winner_conserve (g : GameState)
    (h : ∃ p, p ∈ g.players ∧ p.is_active = true) :
    chipSum (determine_winner g).players = chipSum g.players + g.pot := by
  obtain ⟨p, hp, hact⟩ := h
  have hmemf : p ∈ g.players.filter (fun q => q.is_active) :=
    List.mem_filter.mpr ⟨hp, by simpa using hact⟩
  have hne : g.players.filter (fun q => q.is_active) ≠ [] := by
    intro hemp
    rw [hemp] at hmemf
    exact absurd hmemf (List.not_mem_nil p)
  have hhead : ((g.players.filter (fun q => q.is_active)).headD default) ∈ g.players :=
    List.mem_of_mem_filter (headD_mem hne)
  have hid : ((g.players.filter (fun q => q.is_active)).headD default).id
      ∈ (payout_core g (g.players.filter (fun q => q.is_active))).players.map
          (fun q => q.id) := by
    rw [(payout_core_spec g _).1]
    exact List.mem_map_of_mem _ hhead
  unfold determine_winner
  dsimp only
  exact distribution_fixup_chipSum _ _ _ hne hid

/-! ### Field-preservation lemmas for the turn/round helpers -/

theorem exists_active_of_map_act {l1 l2 : List Player}
    (h : l1.map (fun p => p.is_active) = l2.map (fun p => p.is_active)) :
    (∃ p, p ∈ l1 ∧ p.is_active = true) → ∃ p, p ∈ l2 ∧ p.is_active = true := by
  intro hex
  obtain ⟨p, hp, hact⟩ := hex
  have h1 : (true : Bool) ∈ l1.map (fun p => p.is_active) := by
    rw [← hact]
    exact List.mem_map_of_mem _ hp
  rw [h] at h1
  obtain ⟨q, hq, hq'⟩ := List.mem_map.mp h1
  exact ⟨q, hq, hq'⟩

theorem visuals_fields (g : GameState) :
    (deal_remaining_board_for_visuals g).players = g.players ∧
      (deal_remaining_board_for_visuals g).pot = g.pot := by
  unfold deal_remaining_board_for_visuals deal_community_cards
  dsimp only
  split
  · exact ⟨rfl, rfl⟩
  · exact ⟨rfl, rfl⟩

theorem resetOthers_spec (g : GameState) (pid : String) :
    chipSum (resetOthers g pid).players = chipSum g.players ∧
      (resetOthers g pid).pot = g.pot ∧ (resetOthers g pid).round = g.round := by
  refine ⟨?_, rfl, rfl⟩
  show chipSum (g.players.map _) = chipSum g.players
  refine chipSum_map_of_chips_eq _ (fun p => ?_) _
  split
  · rfl
  · rfl

/-! ### `advance_round` conserves chips; the pot is zero after a payout -/

theorem round_reset_chipSum (g : GameState) :
    chipSum (round_reset g).players = chipSum g.players := by
  exact chipSum_map_of_chips_eq
    (fun p => { p with current_bet := 0, has_acted_this_round := false })
    (fun _ => rfl) g.players

theorem round_reset_map_act (g : GameState) :
    (round_reset g).players.map (fun p => p.is_active)
      = g.players.map (fun p => p.is_active) := by
  exact map_map_of_field_eq (fun p => p.is_active)
    (fun p => { p with current_bet := 0, has_acted_this_round := false })
    (fun _ => rfl) g.players

theorem arb_eq_of_round (g : GameState) :
    (g.round = "preflop" → advance_round_reset_branch g
      = set_postflop_action_start (deal_community_cards
          { round_reset g with round := "flop" } 3)) ∧
    (g.round = "flop" → advance_round_reset_branch g
      = set_postflop_action_start (deal_community_cards
          { round_reset g with round := "turn" } 1)) ∧
    (g.round = "turn" → advance_round_reset_branch g
      = set_postflop_action_start (deal_community_cards
          { round_reset g with round := "river" } 1)) ∧
    (g.round = "river" → advance_round_reset_branch g
      = determine_winner { round_reset g with round := "showdown" }) := by
  have hpot : ¬ ((round_reset g).pot ≠ g.pot) := by
    simp [round_reset]
  have hr : (round_reset g).round = g.round := rfl
  refine ⟨fun h => ?_, fun h => ?_, fun h => ?_, fun h => ?_⟩ <;>
    · unfold advance_round_reset_branch
      dsimp only
      rw [if_neg hpot]
      simp only [hr, h]
      rfl

theorem advance_round_reset_branch_spec (g : GameState)
    (hround : g.round = "preflop" ∨ g.round = "flop" ∨ g.round = "turn" ∨
      g.round = "river")
    (hact : ∃ p, p ∈ (advance_round_reset_branch g).players ∧ p.is_active = true) :
    chipSum (advance_round_reset_branch g).players + (advance_round_reset_branch g).pot
        = chipSum g.players + g.pot ∧
      ((advance_round_reset_branch g).round = "showdown" →
        (advance_round_reset_branch g).pot = 0) := by
  have harb := arb_eq_of_round g
  rcases hround with hr | hr | hr | hr
  · rw [harb.1 hr] at hact ⊢
    refine ⟨?_, fun h => absurd (show ("flop" : String) = "showdown" from h) (by decide)⟩
    show chipSum (round_reset g).players + g.pot = chipSum g.players + g.pot
    rw [round_reset_chipSum]
  · rw [harb.2.1 hr] at hact ⊢
    refine ⟨?_, fun h => absurd (show ("turn" : String) = "showdown" from h) (by decide)⟩
    show chipSum (round_reset g).players + g.pot = chipSum g.players + g.pot
    rw [round_reset_chipSum]
  · rw [harb.2.2.1 hr] at hact ⊢
    refine ⟨?_, fun h => absurd (show ("river" : String) = "showdown" from h) (by decide)⟩
    show chipSum (round_reset g).players + g.pot = chipSum g.players + g.pot
    rw [round_reset_chipSum]
  · rw [harb.2.2.2 hr] at hact ⊢
    have hdw := determine_winner_spec { round_reset g with round := "showdown" }
    have hex : ∃ p, p ∈ ({ round_reset g with round := "showdown" } : GameState).players ∧
        p.is_active = true :=
      exists_active_of_map_act hdw.2.1 hact
    have hcons := determine_winner_conserve _ hex
    rw [hcons, hdw.2.2.1]
    constructor
    · show chipSum (round_reset g).players + g.pot + (0 : Int) = chipSum g.players + g.pot
      rw [round_reset_chipSum]
      ring
    · intro _
      rfl

theorem advance_round_spec (g : GameState)
    (hround : g.round = "preflop" ∨ g.round = "flop" ∨ g.round = "turn" ∨
      g.round = "river")
    (hact : ∃ p, p ∈ (advance_round g).players ∧ p.is_active = true) :
    chipSum (advance_round g).players + (advance_round g).pot
        = chipSum g.players + g.pot ∧
      ((advance_round g).round = "showdown" → (advance_round g).pot = 0) := by
  by_cases hlen : (g.players.filter (fun p => p.is_active)).length ≤ 1
  · have heq : advance_round g =
        determine_winner { deal_remaining_board_for_visuals g with round := "showdown" } := by
      unfold advance_round
      dsimp only
      rw [if_pos hlen]
    rw [heq] at hact ⊢
    have hv := visuals_fields g
    have hdw := determine_winner_spec
      { deal_remaining_board_for_visuals g with round := "showdown" }
    have hex : ∃ p, p ∈ ({ deal_remaining_board_for_visuals g with
        round := "showdown" } : GameState).players ∧ p.is_active = true :=
      exists_active_of_map_act hdw.2.1 hact
    have hcons := determine_winner_conserve _ hex
    rw [hcons, hdw.2.2.1]
    constructor
    · show _ + (0 : Int) = _
      rw [show ({ deal_remaining_board_for_visuals g with
          round := "showdown" } : GameState).players
          = g.players from hv.1]
      rw [show ({ deal_remaining_board_for_visuals g with
          round := "showdown" } : GameState).pot = g.pot from hv.2]
      ring
    · intro _
      rfl
  · have heq : advance_round g = advance_round_reset_branch g := by
      unfold advance_round
      dsimp only
      rw [if_neg hlen]
    rw [heq] at hact ⊢
    exact advance_round_reset_branch_spec g hround hact

/-! ### Each successful action effect conserves `chips + pot` -/

theorem raise_with_spec (g : GameState) (pid : String) (idx : Nat) (player : Player)
    (amt : Int) (m : String) (g1 : GameState)
    (hidx : idx < g.players.length) (hget : g.players.getD idx default = player)
    (h : raise_with g pid idx player amt = (.ok m, g1)) :
    chipSum g1.players + g1.pot = chipSum g.players + g.pot ∧ g1.round = g.round := by
  unfold raise_with at h
  dsimp only at h
  by_cases hc : player.chips < amt - player.current_bet
  · rw [if_pos hc] at h
    by_cases hb : player.current_bet + player.chips > g.current_bet
    · rw [if_pos hb] at h
      injection h with h1 h2
      subst h2
      refine ⟨?_, (resetOthers_spec _ pid).2.2⟩
      rw [(resetOthers_spec _ pid).1, (resetOthers_spec _ pid).2.1]
      dsimp only
      rw [chipSum_setAtV g.players idx _ hidx, hget]
      dsimp only
      ring
    · rw [if_neg hb] at h
      injection h with h1 h2
      subst h2
      refine ⟨?_, rfl⟩
      dsimp only
      rw [chipSum_setAtV g.players idx _ hidx, hget]
      dsimp only
      ring
  · rw [if_neg hc] at h
    injection h with h1 h2
    subst h2
    refine ⟨?_, (resetOthers_spec _ pid).2.2⟩
    rw [(resetOthers_spec _ pid).1, (resetOthers_spec _ pid).2.1]
    dsimp only
    rw [chipSum_setAtV g.players idx _ hidx, hget]
    dsimp only
    ring

theorem apply_action_spec (g : GameState) (pid : String) (idx : Nat) (player : Player)
    (a : Action) (amount : Int) (m : String) (g1 : GameState)
    (hidx : idx < g.players.length) (hget : g.players.getD idx default = player)
    (h : apply_action g pid idx player a amount = (.ok m, g1)) :
    chipSum g1.players + g1.pot = chipSum g.players + g.pot ∧ g1.round = g.round := by
  cases a with
  | fold =>
      unfold apply_action at h
      dsimp only at h
      injection h with h1 h2
      subst h2
      refine ⟨?_, rfl⟩
      dsimp only
      rw [chipSum_setAtV g.players idx _ hidx, hget]
      dsimp only
      ring
  | call =>
      unfold apply_action at h
      dsimp only at h
      by_cases hc : player.chips < g.current_bet - player.current_bet
      · rw [if_pos hc] at h
        injection h with h1 h2
        subst h2
        refine ⟨?_, rfl⟩
        dsimp only
        rw [chipSum_setAtV g.players idx _ hidx, hget]
        dsimp only
        ring
      · rw [if_neg hc] at h
        injection h with h1 h2
        subst h2
        refine ⟨?_, rfl⟩
        dsimp only
        rw [chipSum_setAtV g.players idx _ hidx, hget]
        dsimp only
        ring
  | raise =>
      unfold apply_action at h
      dsimp only at h
      by_cases h0 : amount ≤ player.current_bet
      · rw [if_pos h0] at h
        simp at h
      · rw [if_neg h0] at h
        by_cases h1 : (if amount > player.current_bet + player.chips then
              player.current_bet + player.chips else amount) <
              g.current_bet + g.minimum_raise ∧
            (if amount > player.current_bet + player.chips then
              player.current_bet + player.chips else amount) <
              player.current_bet + player.chips
        · rw [if_pos (by simpa using h1)] at h
          by_cases h2 : (0 : Int) < player.chips
          · rw [if_pos h2] at h
            exact raise_with_spec g pid idx player _ m g1 hidx hget h
          · rw [if_neg h2] at h
            simp at h
        · rw [if_neg (by simpa using h1)] at h
          exact raise_with_spec g pid idx player _ m g1 hidx hget h
  | check =>
      unfold apply_action at h
      dsimp only at h
      by_cases hc : player.current_bet < g.current_bet
      · rw [if_pos hc] at h
        simp at h
      · rw [if_neg hc] at h
        injection h with h1 h2
        subst h2
        refine ⟨?_, rfl⟩
        dsimp only
        rw [chipSum_setAtV g.players idx _ hidx, hget]
        dsimp only
        ring
  | all_in =>
      unfold apply_action at h
      dsimp only at h
      by_cases hb : player.current_bet + player.chips > g.current_bet
      · rw [if_pos hb] at h
        injection h with h1 h2
        subst h2
        refine ⟨?_, (resetOthers_spec _ pid).2.2⟩
        rw [(resetOthers_spec _ pid).1, (resetOthers_spec _ pid).2.1]
        dsimp only
        rw [chipSum_setAtV g.players idx _ hidx, hget]
        dsimp only
        ring
      · rw [if_neg hb] at h
        injection h with h1 h2
        subst h2
        refine ⟨?_, rfl⟩
        dsimp only
        rw [chipSum_setAtV g.players idx _ hidx, hget]
        dsimp only
        ring

/-! ### `process_action` conserves `chips + pot`; any showdown it reaches has
an empty pot -/

theorem process_action_conserve (g : GameState) (pid : String) (a : Action) (amt : Int)
    (m : String) (g' : GameState)
    (h : process_action g pid a amt = (.ok m, g'))
    (hround : g.round = "preflop" ∨ g.round = "flop" ∨ g.round = "turn" ∨
      g.round = "river")
    (hact : ∃ p, p ∈ g'.players ∧ p.is_active = true) :
    chipSum g'.players + g'.pot = chipSum g.players + g.pot ∧
      (g'.round = "showdown" → g'.pot = 0) := by
  unfold process_action at h
  cases hfind : findPlayerIdx g.players pid with
  | none => rw [hfind] at h; simp at h
  | some ip =>
      obtain ⟨idx, player⟩ := ip
      rw [hfind] at h
      dsimp only at h
      by_cases h1 : idx ≠ g.current_player
      · rw [if_pos h1] at h; simp at h
      rw [if_neg h1] at h
      by_cases h2 : (!player.is_active) = true
      · rw [if_pos h2] at h; simp at h
      rw [if_neg h2] at h
      by_cases h3 : player.is_all_in = true
      · rw [if_pos h3] at h; simp at h
      rw [if_neg h3] at h
      by_cases h4 : player.chips ≤ 0
      · rw [if_pos h4] at h; simp at h
      rw [if_neg h4] at h
      obtain ⟨hidx, hget, -⟩ := findPlayerIdx_spec pid g.players idx player hfind
      cases happ : apply_action g pid idx player a amt with
      | mk r g1 =>
          rw [happ] at h
          cases r with
          | err e => dsimp only at h; simp at h
          | ok m1 =>
              dsimp only at h
              injection h with hm hg'
              obtain ⟨hsum, hrnd⟩ :=
                apply_action_spec g pid idx player a amt m1 g1 hidx hget happ
              by_cases hrc : is_round_complete (next_player g1) = true
              · rw [if_pos hrc] at hg'
                subst hg'
                have hnp_players : (next_player g1).players = g1.players := rfl
                have hnp_pot : (next_player g1).pot = g1.pot := rfl
                have hnp_round : (next_player g1).round = g1.round := rfl
                have hround2 : (next_player g1).round = "preflop" ∨
                    (next_player g1).round = "flop" ∨ (next_player g1).round = "turn" ∨
                    (next_player g1).round = "river" := by
                  rw [hnp_round, hrnd]
                  exact hround
                obtain ⟨hs, hp⟩ := advance_round_spec (next_player g1) hround2 hact
                refine ⟨?_, hp⟩
                rw [hs, hnp_players, hnp_pot, hsum]
              · rw [if_neg hrc] at hg'
                subst hg'
                refine ⟨hsum, ?_⟩
                intro hsd
                have : g.round = "showdown" := by
                  rw [← hrnd]
                  exact hsd
                rcases hround with hr | hr | hr | hr <;>
                  · rw [hr] at this
                    exact absurd this (by decide)

/-! ### Hand setup conserves chips -/

theorem dealOneEach_map_field {α : Type} (f : Player → α)
    (hf : ∀ (p : Player) (cs : List Card), f { p with cards := cs } = f p) :
    ∀ (ps : List Player) (deck : List Card),
      (dealOneEach ps deck).1.map f = ps.map f := by
  intro ps
  induction ps with
  | nil => intro deck; rfl
  | cons p ps ih =>
      intro deck
      unfold dealOneEach
      dsimp only
      split
      · simp [hf, ih]
      · simp [ih]

theorem deal_hole_cards_chipSum (g : GameState) :
    chipSum (deal_hole_cards g).players = chipSum g.players := by
  unfold deal_hole_cards chipSum
  dsimp only
  rw [dealOneEach_map_field (fun p => p.chips) (fun _ _ => rfl),
    dealOneEach_map_field (fun p => p.chips) (fun _ _ => rfl)]

theorem deal_hole_cards_length (g : GameState) :
    (deal_hole_cards g).players.length = g.players.length := by
  have h1 := dealOneEach_map_field (fun p => p.chips) (fun _ _ => rfl)
    (dealOneEach g.players g.deck).1 (dealOneEach g.players g.deck).2
  have h2 := dealOneEach_map_field (fun p => p.chips) (fun _ _ => rfl) g.players g.deck
  have := congrArg List.length (h1.trans h2)
  simpa using this

theorem length_postOneBlind (g : GameState) (pos : Nat) (b : Int) :
    (postOneBlind g pos b).2.players.length = g.players.length := by
  unfold postOneBlind
  dsimp only
  exact length_setAtV _ _ _

theorem postOneBlind_conserve (g : GameState) (pos : Nat) (b : Int)
    (hpos : pos < g.players.length) :
    chipSum (postOneBlind g pos b).2.players + (postOneBlind g pos b).2.pot
      = chipSum g.players + g.pot := by
  unfold postOneBlind
  dsimp only
  rw [chipSum_setAtV _ _ _ hpos]
  dsimp only
  ring

theorem post_blinds_core_conserve (g : GameState) (hne : g.players ≠ []) :
    chipSum (post_blinds_core g).players + (post_blinds_core g).pot
      = chipSum g.players + g.pot := by
  have hn : 0 < g.players.length := List.length_pos.mpr hne
  have hsb : (g.dealer_position + 1) % g.players.length < g.players.length :=
    Nat.mod_lt _ hn
  have hbb : (g.dealer_position + 2) % g.players.length <
      (postOneBlind g ((g.dealer_position + 1) % g.players.length) g.small_blind).2.players.length := by
    rw [length_postOneBlind]
    exact Nat.mod_lt _ hn
  unfold post_blinds_core
  dsimp only
  calc chipSum (postOneBlind (postOneBlind g ((g.dealer_position + 1) % g.players.length)
          g.small_blind).2 ((g.dealer_position + 2) % g.players.length)
          g.big_blind).2.players
        + (postOneBlind (postOneBlind g ((g.dealer_position + 1) % g.players.length)
          g.small_blind).2 ((g.dealer_position + 2) % g.players.length) g.big_blind).2.pot
      = chipSum (postOneBlind g ((g.dealer_position + 1) % g.players.length)
          g.small_blind).2.players
        + (postOneBlind g ((g.dealer_position + 1) % g.players.length) g.small_blind).2.pot :=
        postOneBlind_conserve _ _ _ hbb
    _ = chipSum g.players + g.pot := postOneBlind_conserve _ _ _ hsb

theorem post_blinds_fields (g : GameState) :
    (post_blinds g).players = (post_blinds_core g).players ∧
      (post_blinds g).pot = (post_blinds_core g).pot ∧
      (post_blinds g).round = (post_blinds_core g).round := by
  unfold post_blinds
  dsimp only
  split
  · exact ⟨rfl, rfl, rfl⟩
  · split
    · exact ⟨rfl, rfl, rfl⟩
    · exact ⟨rfl, rfl, rfl⟩

theorem post_blinds_conserve (g : GameState) (hne : g.players ≠ []) :
    chipSum (post_blinds g).players + (post_blinds g).pot
      = chipSum g.players + g.pot := by
  rw [(post_blinds_fields g).1, (post_blinds_fields g).2.1]
  exact post_blinds_core_conserve g hne

/-- The state built by `start_new_hand` conserves the chips assigned at player
creation: table chips plus pot equal the built players' chips. -/
theorem start_new_hand_conserve (e : PokerEngine) (deck : List Card)
    (player_ids player_names : List String) (sc : Int) (pres : Bool)
    (hne : build_players e player_ids player_names sc pres ≠ []) :
    chipSum (start_new_hand e deck player_ids player_names sc pres).2.players
        + (start_new_hand e deck player_ids player_names sc pres).2.pot
      = chipSum (build_players e player_ids player_names sc pres) := by
  unfold start_new_hand
  dsimp only
  rw [post_blinds_conserve]
  · rw [deal_hole_cards_chipSum]
    have hpot : ∀ (x : GameState), (deal_hole_cards x).pot = x.pot := fun _ => rfl
    rw [hpot]
    dsimp only
    rw [show chipSum (build_players e player_ids player_names sc pres) + (0 : Int)
      = chipSum (build_players e player_ids player_names sc pres) by ring]
  · intro hemp
    have := congrArg List.length hemp
    rw [deal_hole_cards_length] at this
    dsimp only at this
    exact hne (List.length_eq_zero.mp this)

/-! ### Concrete example states used by the claim theorems and witnesses -/

/-- A player mid-hand: active, not all-in, already acted this round. -/
def mkP (pid nm : String) (ch : Int) (cs : List Card) (cb tb : Int) (pos : Nat) : Player :=
  { id := pid, name := nm, chips := ch, cards := cs, current_bet := cb, total_bet := tb,
    is_active := true, is_all_in := false, position := pos, has_acted_this_round := true }

def egEngine : PokerEngine := ⟨10, 20, none, 0, 0⟩

def egDeck : List Card :=
  [⟨2, .hearts⟩, ⟨7, .spades⟩, ⟨9, .clubs⟩, ⟨11, .diamonds⟩, ⟨3, .hearts⟩, ⟨4, .clubs⟩,
   ⟨5, .diamonds⟩, ⟨6, .hearts⟩, ⟨8, .spades⟩, ⟨10, .clubs⟩, ⟨12, .diamonds⟩]

/-- A fresh two-player hand (blinds 10/20, stacks 1000). -/
def egHand : GameState :=
  (start_new_hand egEngine egDeck ["p1", "p2"] ["P1", "P2"] 1000 false).2

/-- The result of the big blind folding preflop in `egHand` (hand ends). -/
def egFold : ActionResult × GameState := process_action egHand "p2" Action.fold 0

/-- Showdown with total bets 50/150/300/300 and strictly ordered hand
strengths: `p1` (pair of aces) > `p2` (kings) > `p3` (jacks) > `p4` (tens);
board is dry (no straight or flush possible). -/
def stC2 : GameState :=
  { players :=
      [mkP "p1" "P1" 950 [⟨14, .spades⟩, ⟨14, .diamonds⟩] 0 50 0,
       mkP "p2" "P2" 850 [⟨13, .spades⟩, ⟨13, .diamonds⟩] 0 150 1,
       mkP "p3" "P3" 700 [⟨11, .spades⟩, ⟨11, .diamonds⟩] 0 300 2,
       mkP "p4" "P4" 700 [⟨10, .spades⟩, ⟨10, .diamonds⟩] 0 300 3]
    community_cards := [⟨2, .hearts⟩, ⟨3, .diamonds⟩, ⟨7, .clubs⟩, ⟨8, .spades⟩, ⟨12, .hearts⟩]
    pot := 800, current_bet := 0, dealer_position := 0, current_player := 0
    round := "showdown", deck := [], small_blind := 10, big_blind := 20, hand_number := 1
    last_raise_amount := 0, minimum_raise := 10 }

/-- Preflop heads-up: `p1` (big blind, bet 20) has acted, `p2` has a 1000-chip
stack, owes 20, and it is `p2`'s turn; table bet 20, minimum raise 20, so the
minimum legal raise target is 40. -/
def stC3 : GameState :=
  { players :=
      [mkP "p1" "P1" 980 [⟨14, .spades⟩, ⟨14, .diamonds⟩] 20 20 0,
       { mkP "p2" "P2" 1000 [⟨13, .spades⟩, ⟨13, .diamonds⟩] 0 0 1 with
           has_acted_this_round := false }]
    community_cards := []
    pot := 20, current_bet := 20, dealer_position := 0, current_player := 1
    round := "preflop"
    deck := [⟨2, .hearts⟩, ⟨3, .hearts⟩, ⟨4, .hearts⟩, ⟨5, .hearts⟩, ⟨6, .hearts⟩]
    small_blind := 10, big_blind := 20, hand_number := 1
    last_raise_amount := 20, minimum_raise := 20 }

/-- Like `stC3` but `p2` has exactly 100 chips, so a raise to 100 spends the
entire stack. -/
def stC7 : GameState :=
  { stC3 with players :=
      [mkP "p1" "P1" 980 [⟨14, .spades⟩, ⟨14, .diamonds⟩] 20 20 0,
       { mkP "p2" "P2" 100 [⟨13, .spades⟩, ⟨13, .diamonds⟩] 0 0 1 with
           has_acted_this_round := false }] }

/-! ### Claim C2 -/

set_option maxRecDepth 10000 in
/-- Claim C2 (side-pot layering) fails on the code: at showdown with total
bets 50/150/300/300 and hand strengths p1 > p2 > p3 > p4, the code iterates
the bet levels in descending order, so the top level collects the two deepest
players' entire bets (600) and is paid only among them (p3 wins 600), every
lower level computes a negative pot and is skipped, and the leftover 200 is
paid to the best hand among all active players (p1).  The layered
distribution of the claim would pay p1 200 (50-layer), p2 300 (150-layer) and
p3 300 (300-layer); instead p2 receives nothing and p3 receives 600, and the
distinct-level count is 3 (side pots per the claim's trigger condition). -/
theorem claim_C2_side_pot_layering_bug :
    (determine_winner stC2).players.map (fun p => (p.id, p.chips))
        = [("p1", 1150), ("p2", 850), ("p3", 1300), ("p4", 700)] ∧
      (determine_winner stC2).pot = 0 ∧
      ((stC2.players.filter (fun p => 0 < p.total_bet)).map
          (fun p => p.total_bet)).dedup.length = 3 := by
  refine ⟨?_, by decide, by decide⟩
  decide

/-! ### Claim C3 -/

/-- Claim C3 (raise-below-minimum rejection) fails on the code: in `stC3`,
`p2` raises to 30, which is below the minimum legal target 40 while `p2`
could easily afford it (`max_affordable` is 1000), yet `process_action` does
not reject — it silently converts the request into a forced all-in raise to
1000, moving `p2`'s entire 1000-chip stack into the pot. -/
theorem claim_C3_below_minimum_raise_not_rejected :
    ((30 : Int) < stC3.current_bet + stC3.minimum_raise ∧
      (30 : Int) <
        ((stC3.players.getD 1 default).current_bet + (stC3.players.getD 1 default).chips)) ∧
    (process_action stC3 "p2" Action.raise 30).1 = ActionResult.ok "P2 raised to 1000" ∧
    (process_action stC3 "p2" Action.raise 30).2.pot = 1020 ∧
    (process_action stC3 "p2" Action.raise 30).2.players.map (fun p => p.chips)
      = [980, 0] := by
  refine ⟨by decide, ?_, by decide, by decide⟩
  decide

/-! ### Claim C4 -/

/-- Claim C4 (wheel straight tie-break) fails on the code: the evaluator
recognises A-2-3-4-5 as a straight but tie-breaks it with `max(ranks) = 14`,
not 5, so the wheel compares strictly greater than the 6-high straight
instead of strictly less; the Ace-low straight flush likewise gets 14. -/
theorem claim_C4_wheel_tiebreak_bug :
    evaluate_hand [⟨14, .spades⟩, ⟨2, .hearts⟩, ⟨3, .diamonds⟩, ⟨4, .clubs⟩, ⟨5, .spades⟩]
        = (HandRank.straight, [14]) ∧
      evaluate_hand [⟨2, .spades⟩, ⟨3, .hearts⟩, ⟨4, .diamonds⟩, ⟨5, .clubs⟩, ⟨6, .spades⟩]
        = (HandRank.straight, [6]) ∧
      handGt
        (evaluate_hand [⟨14, .spades⟩, ⟨2, .hearts⟩, ⟨3, .diamonds⟩, ⟨4, .clubs⟩, ⟨5, .spades⟩])
        (evaluate_hand [⟨2, .spades⟩, ⟨3, .hearts⟩, ⟨4, .diamonds⟩, ⟨5, .clubs⟩, ⟨6, .spades⟩])
        = true ∧
      evaluate_hand [⟨14, .spades⟩, ⟨2, .spades⟩, ⟨3, .spades⟩, ⟨4, .spades⟩, ⟨5, .spades⟩]
        = (HandRank.straight_flush, [14]) := by
  refine ⟨by decide, by decide, by decide, by decide⟩

/-! ### Claim C7 -/

/-- Claim C7 (all-in flag on a stack-consuming raise) fails on the code: in
`stC7`, `p2` raises to exactly `max_affordable = 100` (their current bet 0
plus stack 100, and 100 is at least the minimum legal target 40), the raise
succeeds and consumes the whole stack, yet `is_all_in` remains `false` —
the auto-all-in branch that would set the flag requires
`chips < raise_amount`, which is impossible after the clamp to
`max_affordable`. -/
theorem claim_C7_all_in_flag_not_set :
    (100 : Int) = (stC7.players.getD 1 default).current_bet
        + (stC7.players.getD 1 default).chips ∧
      (process_action stC7 "p2" Action.raise 100).1 = ActionResult.ok "P2 raised to 100" ∧
      ((process_action stC7 "p2" Action.raise 100).2.players.getD 1 default).chips = 0 ∧
      ((process_action stC7 "p2" Action.raise 100).2.players.getD 1 default).is_all_in
        = false := by
  refine ⟨by decide, ?_, by decide, by decide⟩
  decide

/-! ### Claim C1 -/

/-- Claim C1 (chip conservation): (1) a hand created by `start_new_hand` (for
any shuffle, any nonempty player list) satisfies `sum(chips) + pot = sum of
the chips the players were created with`; (2) every successful
`process_action` step from a live betting round preserves `sum(chips) + pot`
— so the quantity stays equal to its hand-start value at every observation
point — and whenever the step ends in `round = "showdown"` (i.e. after
`_determine_winner` completed, which requires at least one active player,
else Python raises) the pot is exactly 0, so `sum(chips)` alone equals the
pre-hand-start total. -/
theorem claim_C1_chip_conservation :
    (∀ (e : PokerEngine) (deck : List Card) (player_ids player_names : List String)
        (sc : Int) (pres : Bool),
        build_players e player_ids player_names sc pres ≠ [] →
        chipSum (start_new_hand e deck player_ids player_names sc pres).2.players
            + (start_new_hand e deck player_ids player_names sc pres).2.pot
          = chipSum (build_players e player_ids player_names sc pres)) ∧
    (∀ (g : GameState) (pid : String) (a : Action) (amt : Int) (m : String)
        (g' : GameState),
        process_action g pid a amt = (ActionResult.ok m, g') →
        (g.round = "preflop" ∨ g.round = "flop" ∨ g.round = "turn" ∨
          g.round = "river") →
        (∃ p, p ∈ g'.players ∧ p.is_active = true) →
        chipSum g'.players + g'.pot = chipSum g.players + g.pot ∧
          (g'.round = "showdown" → g'.pot = 0)) :=
  ⟨fun e deck ids names sc pres hne => start_new_hand_conserve e deck ids names sc pres hne,
   fun g pid a amt m g' h h4 hact => process_action_conserve g pid a amt m g' h h4 hact⟩

/-- Witness for C1 at concrete inputs: the fresh hand `egHand` (blinds 10+20
posted, pot 30, chips 980+990) conserves the 2000 created chips, and the
successful fold by `p2` (which ends the hand and pays the pot out) preserves
`chips + pot` and leaves a zero pot at showdown. -/
theorem claim_C1_witness :
    (build_players egEngine ["p1", "p2"] ["P1", "P2"] 1000 false ≠ [] ∧
      chipSum egHand.players + egHand.pot
        = chipSum (build_players egEngine ["p1", "p2"] ["P1", "P2"] 1000 false)) ∧
    (process_action egHand "p2" Action.fold 0 = (ActionResult.ok "P2 folded", egFold.2) ∧
      (∃ p, p ∈ egFold.2.players ∧ p.is_active = true) ∧
      chipSum egFold.2.players + egFold.2.pot = chipSum egHand.players + egHand.pot ∧
      (egFold.2.round = "showdown" → egFold.2.pot = 0)) := by
  have hne : build_players egEngine ["p1", "p2"] ["P1", "P2"] 1000 false ≠ [] := by decide
  have hstep : process_action egHand "p2" Action.fold 0
      = (ActionResult.ok "P2 folded", egFold.2) := by decide
  have hact : ∃ p, p ∈ egFold.2.players ∧ p.is_active = true :=
    ⟨egFold.2.players.headD default, headD_mem (by decide), by decide⟩
  exact ⟨⟨hne, claim_C1_chip_conservation.1 egEngine egDeck ["p1", "p2"] ["P1", "P2"]
      1000 false hne⟩,
    ⟨hstep, hact, claim_C1_chip_conservation.2 egHand "p2" Action.fold 0 "P2 folded"
      egFold.2 hstep (Or.inl (by decide)) hact⟩⟩

/-! ### Claim C8 -/

/-- Claim C8 fails on the code as stated: `deal_cards` is plain slicing with
no error path at all.  Dealing 2 cards from a 1-card deck silently returns
just the 1 remaining card (and an empty remainder) instead of failing with an
`InsufficientCards` error. -/
theorem claim_C8_counterexample :
    deal_cards [⟨14, Suit.spades⟩] 2 = ([⟨14, Suit.spades⟩], []) ∧
      (deal_cards [⟨14, Suit.spades⟩] 2).1.length = 1 := by
  exact ⟨rfl, rfl⟩

/-- Claim C8 amended: `deal_cards deck n` returns `(deck.take n, deck.drop n)`
— the first `min n |deck|` cards and the remainder in order; when `n` exceeds
the remaining cards it silently returns all of them (`|dealt| = min n |deck|`
< n) with no error. -/
theorem claim_C8_deal_cards_amended (deck : List Card) (n : Nat) :
    deal_cards deck n = (deck.take n, deck.drop n) ∧
      (deal_cards deck n).1 ++ (deal_cards deck n).2 = deck ∧
      (deal_cards deck n).1.length = min n deck.length := by
  refine ⟨rfl, List.take_append_drop n deck, ?_⟩
  simp [deal_cards]

/-! ### Claim C5 -/

/-- Flop, table bet 0, three-handed; `q1` (seat 0, to act) holds cards but has
zero chips while being active and not all-in. -/
def stC5 : GameState :=
  { players :=
      [{ mkP "q1" "Q1" 0 [⟨14, .spades⟩, ⟨9, .diamonds⟩] 0 100 0 with
           has_acted_this_round := false },
       { mkP "q2" "Q2" 500 [⟨13, .spades⟩, ⟨9, .clubs⟩] 0 100 1 with
           has_acted_this_round := false },
       { mkP "q3" "Q3" 500 [⟨12, .spades⟩, ⟨9, .hearts⟩] 0 100 2 with
           has_acted_this_round := false }]
    community_cards := [⟨2, .hearts⟩, ⟨3, .diamonds⟩, ⟨7, .clubs⟩]
    pot := 300, current_bet := 0, dealer_position := 0, current_player := 0
    round := "flop", deck := [⟨4, .hearts⟩, ⟨5, .hearts⟩]
    small_blind := 10, big_blind := 20, hand_number := 1
    last_raise_amount := 0, minimum_raise := 10 }

/-- `stC5` with `q1` folded (still to "act" per the stale pointer). -/
def stC5folded : GameState :=
  { stC5 with players :=
      [{ mkP "q1" "Q1" 50 [⟨14, .spades⟩, ⟨9, .diamonds⟩] 0 100 0 with
           is_active := false, has_acted_this_round := false },
       { mkP "q2" "Q2" 500 [⟨13, .spades⟩, ⟨9, .clubs⟩] 0 100 1 with
           has_acted_this_round := false },
       { mkP "q3" "Q3" 500 [⟨12, .spades⟩, ⟨9, .hearts⟩] 0 100 2 with
           has_acted_this_round := false }] }

/-- `stC5` with `q1` all-in. -/
def stC5allin : GameState :=
  { stC5 with players :=
      [{ mkP "q1" "Q1" 50 [⟨14, .spades⟩, ⟨9, .diamonds⟩] 0 100 0 with
           is_all_in := true, has_acted_this_round := false },
       { mkP "q2" "Q2" 500 [⟨13, .spades⟩, ⟨9, .clubs⟩] 0 100 1 with
           has_acted_this_round := false },
       { mkP "q3" "Q3" 500 [⟨12, .spades⟩, ⟨9, .hearts⟩] 0 100 2 with
           has_acted_this_round := false }] }

/-- Claim C5 fails on the code in its last part: in `stC5` it is the turn of
`q1`, who is active, not all-in, and has 0 chips — and their Fold is rejected
with "Player has no chips".  The `chips > 0` precondition applies to Fold
too, contrary to the claim's "a player with 0 chips whose turn it is may
still fold". -/
theorem claim_C5_counterexample :
    ((stC5.players.getD 0 default).is_active = true ∧
      (stC5.players.getD 0 default).is_all_in = false ∧
      (stC5.players.getD 0 default).chips = 0 ∧
      stC5.current_player = 0) ∧
    process_action stC5 "q1" Action.fold 0 = (ActionResult.err "Player has no chips", stC5) := by
  exact ⟨⟨rfl, rfl, rfl, rfl⟩, by decide⟩

/-- Claim C5 amended: the `process_action` preconditions are checked in the
fixed order (no active game at the engine level, unknown player, not this
player's turn, already folded, already all-in, no chips), each failure
returning its own distinct error and leaving the state exactly unchanged;
the `chips > 0` precondition applies to every action including Fold. -/
theorem claim_C5_precondition_order (e : PokerEngine) (g : GameState) (pid : String)
    (a : Action) (amt : Int) :
    (e.game_state = none →
      engine_process_action e pid a amt = (ActionResult.err "No active game", e)) ∧
    (findPlayerIdx g.players pid = none →
      process_action g pid a amt = (ActionResult.err "Player not found", g)) ∧
    (∀ i p, findPlayerIdx g.players pid = some (i, p) → i ≠ g.current_player →
      process_action g pid a amt = (ActionResult.err "Not your turn", g)) ∧
    (∀ i p, findPlayerIdx g.players pid = some (i, p) → i = g.current_player →
      p.is_active = false →
      process_action g pid a amt = (ActionResult.err "Player has already folded", g)) ∧
    (∀ i p, findPlayerIdx g.players pid = some (i, p) → i = g.current_player →
      p.is_active = true → p.is_all_in = true →
      process_action g pid a amt = (ActionResult.err "Player is all-in, cannot act", g)) ∧
    (∀ i p, findPlayerIdx g.players pid = some (i, p) → i = g.current_player →
      p.is_active = true → p.is_all_in = false → p.chips ≤ 0 →
      process_action g pid a amt = (ActionResult.err "Player has no chips", g)) := by
  refine ⟨fun h0 => ?_, fun h0 => ?_, fun i p hf h1 => ?_, fun i p hf h1 h2 => ?_,
    fun i p hf h1 h2 h3 => ?_, fun i p hf h1 h2 h3 h4 => ?_⟩
  · unfold engine_process_action
    rw [h0]
  · unfold process_action
    rw [h0]
  · unfold process_action
    rw [hf]
    dsimp only
    rw [if_pos h1]
  · unfold process_action
    rw [hf]
    dsimp only
    rw [if_neg (not_not_intro h1), if_pos (by rw [h2]; rfl)]
  · unfold process_action
    rw [hf]
    dsimp only
    rw [if_neg (not_not_intro h1), if_neg (by rw [h2]; simp), if_pos h3]
  · unfold process_action
    rw [hf]
    dsimp only
    rw [if_neg (not_not_intro h1), if_neg (by rw [h2]; simp),
      if_neg (by rw [h3]; simp), if_pos h4]

/-- Witness for the amended C5 at concrete inputs: each precondition error is
produced at a concrete state, in particular the no-chips rejection of a Fold. -/
theorem claim_C5_witness :
    engine_process_action egEngine "q1" Action.call 0
        = (ActionResult.err "No active game", egEngine) ∧
      process_action stC5 "nobody" Action.call 0
        = (ActionResult.err "Player not found", stC5) ∧
      process_action stC5 "q2" Action.call 0 = (ActionResult.err "Not your turn", stC5) ∧
      process_action stC5folded "q1" Action.call 0
        = (ActionResult.err "Player has already folded", stC5folded) ∧
      process_action stC5allin "q1" Action.call 0
        = (ActionResult.err "Player is all-in, cannot act", stC5allin) ∧
      process_action stC5 "q1" Action.fold 0
        = (ActionResult.err "Player has no chips", stC5) := by
  refine ⟨(claim_C5_precondition_order egEngine stC5 "q1" Action.call 0).1 rfl,
    (claim_C5_precondition_order egEngine stC5 "nobody" Action.call 0).2.1 (by decide),
    (claim_C5_precondition_order egEngine stC5 "q2" Action.call 0).2.2.1 1
      (stC5.players.getD 1 default) (by decide) (by decide),
    (claim_C5_precondition_order egEngine stC5folded "q1" Action.call 0).2.2.2.1 0
      (stC5folded.players.getD 0 default) (by decide) rfl (by decide),
    (claim_C5_precondition_order egEngine stC5allin "q1" Action.call 0).2.2.2.2.1 0
      (stC5allin.players.getD 0 default) (by decide) rfl (by decide) (by decide),
    (claim_C5_precondition_order egEngine stC5 "q1" Action.fold 0).2.2.2.2.2 0
      (stC5.players.getD 0 default) (by decide) rfl (by decide) (by decide) (by decide)⟩

/-! ### Claim C6: turn-pointer characterization -/

theorem getD_mem_of_lt (l : List Player) (i : Nat) (hi : i < l.length) :
    l.getD i default ∈ l := by
  induction l generalizing i with
  | nil => simp at hi
  | cons p ps ih =>
      cases i with
      | zero => simp [List.getD]
      | succ j =>
          have hj : j < ps.length := by simpa using hi
          have := ih j hj
          simp [List.getD] at this ⊢
          exact Or.inr this

theorem scanFirst_some_spec (pred : Nat → Bool) :
    ∀ (fuel off r : Nat), scanFirst pred off fuel = some r →
      off ≤ r ∧ r < off + fuel ∧ pred r = true ∧
        ∀ j, off ≤ j → j < r → pred j = false := by
  intro fuel
  induction fuel with
  | zero => intro off r h; simp [scanFirst] at h
  | succ k ih =>
      intro off r h
      rw [scanFirst] at h
      by_cases hp : pred off = true
      · rw [if_pos hp] at h
        have hr : off = r := Option.some.inj h
        subst hr
        exact ⟨Nat.le_refl _, by omega, hp, fun j h1 h2 => by omega⟩
      · rw [if_neg hp] at h
        obtain ⟨h1, h2, h3, h4⟩ := ih (off + 1) r h
        refine ⟨by omega, by omega, h3, fun j hj1 hj2 => ?_⟩
        by_cases hje : j = off
        · subst hje
          simpa using hp
        · exact h4 j (by omega) hj2

theorem scanFirst_none_spec (pred : Nat → Bool) :
    ∀ (fuel off : Nat), scanFirst pred off fuel = none →
      ∀ j, off ≤ j → j < off + fuel → pred j = false := by
  intro fuel
  induction fuel with
  | zero => intro off h j h1 h2; omega
  | succ k ih =>
      intro off h j h1 h2
      rw [scanFirst] at h
      by_cases hp : pred off = true
      · rw [if_pos hp] at h
        simp at h
      · rw [if_neg hp] at h
        by_cases hje : j = off
        · subst hje
          simpa using hp
        · exact ih (off + 1) h j (by omega) (by omega)

theorem mem_eligibleIdx (g : GameState) (i : Nat) :
    i ∈ eligibleIdx g ↔ i < g.players.length ∧
      ((g.players.getD i default).is_active &&
        !(g.players.getD i default).is_all_in &&
        decide (0 < (g.players.getD i default).chips) &&
        decide ((g.players.getD i default).current_bet < g.current_bet)) = true := by
  unfold eligibleIdx idxWhere
  rw [List.mem_filter, List.mem_range]

theorem eligibleIdx_empty_of_nonneg (g : GameState) (hb : g.current_bet ≤ 0)
    (hnn : ∀ p, p ∈ g.players → 0 ≤ p.current_bet) : eligibleIdx g = [] := by
  unfold eligibleIdx idxWhere
  apply List.filter_eq_nil_iff.mpr
  intro i hi
  have hmem : g.players.getD i default ∈ g.players :=
    getD_mem_of_lt _ _ (List.mem_range.mp hi)
  have hge := hnn _ hmem
  have hlt : ¬ ((g.players.getD i default).current_bet < g.current_bet) := by omega
  intro hcontra
  simp only [Bool.and_eq_true, decide_eq_true_eq] at hcontra
  exact hlt hcontra.2

theorem next_player_of_empty (g : GameState) (h : eligibleIdx g = []) :
    next_player g = g := by
  unfold next_player next_player_pos
  dsimp only
  rw [h]
  rfl

theorem next_player_of_ne (g : GameState) (hne : eligibleIdx g ≠ []) :
    (next_player g).current_player ∈ eligibleIdx g ∧
      ∃ off, off < g.players.length ∧
        (next_player g).current_player
          = (g.current_player + 1 + off) % g.players.length ∧
        ∀ off2, off2 < off →
          ((g.current_player + 1 + off2) % g.players.length) ∉ eligibleIdx g := by
  obtain ⟨i, hi⟩ := List.exists_mem_of_ne_nil _ hne
  have hilen : i < g.players.length := ((mem_eligibleIdx g i).mp hi).1
  have hn : 0 < g.players.length := by omega
  set n := g.players.length with hn_def
  set start := (g.current_player + 1) % n with hstart
  set pred := fun off => (eligibleIdx g).contains ((start + off) % n) with hpred
  have hstartlt : start < n := Nat.mod_lt _ hn
  -- the scan cannot fail: some offset below n reaches `i`
  have hscan : scanFirst pred 0 n ≠ none := by
    intro hnone
    have hall := scanFirst_none_spec pred n 0 hnone
    have hoff : ∃ off, off < n ∧ (start + off) % n = i := by
      by_cases hcase : start ≤ i
      · exact ⟨i - start, by omega, by
          rw [show start + (i - start) = i by omega]
          exact Nat.mod_eq_of_lt hilen⟩
      · refine ⟨n - start + i, by omega, ?_⟩
        rw [show start + (n - start + i) = n + i by omega]
        rw [Nat.add_mod_left]
        exact Nat.mod_eq_of_lt hilen
    obtain ⟨off, hofflt, hoffeq⟩ := hoff
    have := hall off (by omega) (by omega)
    rw [hpred] at this
    dsimp only at this
    rw [hoffeq] at this
    have : i ∉ eligibleIdx g := by simpa using this
    exact this hi
  cases hsc : scanFirst pred 0 n with
  | none => exact absurd hsc hscan
  | some off0 =>
      obtain ⟨-, hlt, hp0, hmin⟩ := scanFirst_some_spec pred n 0 off0 hsc
      have hcur : (next_player g).current_player = (start + off0) % n := by
        show next_player_pos g = _
        unfold next_player_pos
        dsimp only
        rw [if_neg (by simpa using hne)]
        rw [← hstart, ← hn_def, ← hpred, hsc]
      have hmem : (start + off0) % n ∈ eligibleIdx g := by
        rw [hpred] at hp0
        dsimp only at hp0
        simpa using hp0
      have hmod : ∀ off : Nat, (start + off) % n = (g.current_player + 1 + off) % n := by
        intro off
        rw [hstart, Nat.mod_add_mod]
      refine ⟨by rw [hcur]; exact hmem, off0, by omega, by rw [hcur, hmod], ?_⟩
      intro off2 hoff2
      have hf := hmin off2 (by omega) hoff2
      rw [hpred] at hf
      dsimp only at hf
      rw [hmod] at hf
      simpa using hf

theorem advance_round_eq_single (g : GameState)
    (hlen : (g.players.filter (fun p => p.is_active)).length ≤ 1) :
    advance_round g
      = determine_winner { deal_remaining_board_for_visuals g with round := "showdown" } := by
  unfold advance_round
  dsimp only
  rw [if_pos hlen]

theorem advance_round_eq_multi (g : GameState)
    (hlen : ¬ (g.players.filter (fun p => p.is_active)).length ≤ 1) :
    advance_round g = advance_round_reset_branch g := by
  unfold advance_round
  dsimp only
  rw [if_neg hlen]

theorem advance_round_changes (g : GameState)
    (h4 : g.round = "preflop" ∨ g.round = "flop" ∨ g.round = "turn" ∨
      g.round = "river") :
    (advance_round g).round ≠ g.round := by
  by_cases hlen : (g.players.filter (fun p => p.is_active)).length ≤ 1
  · rw [advance_round_eq_single g hlen]
    have hdw := (determine_winner_spec
      { deal_remaining_board_for_visuals g with round := "showdown" }).2.2.2
    rw [hdw]
    intro hcontra
    have hsd : ("showdown" : String) = g.round := hcontra
    rcases h4 with hr | hr | hr | hr <;>
      · rw [hr] at hsd
        exact absurd hsd (by decide)
  · rw [advance_round_eq_multi g hlen]
    have harb := arb_eq_of_round g
    rcases h4 with hr | hr | hr | hr
    · rw [harb.1 hr, hr]
      intro hcontra
      exact absurd (show ("flop" : String) = "preflop" from hcontra) (by decide)
    · rw [harb.2.1 hr, hr]
      intro hcontra
      exact absurd (show ("turn" : String) = "flop" from hcontra) (by decide)
    · rw [harb.2.2.1 hr, hr]
      intro hcontra
      exact absurd (show ("river" : String) = "turn" from hcontra) (by decide)
    · rw [harb.2.2.2 hr, hr]
      have hdw := (determine_winner_spec { round_reset g with round := "showdown" }).2.2.2
      rw [hdw]
      intro hcontra
      exact absurd (show ("showdown" : String) = "river" from hcontra) (by decide)

theorem mem_setAtV_cases :
    ∀ (l : List Player) (i : Nat) (v q : Player), q ∈ setAtV l i v → q ∈ l ∨ q = v := by
  intro l
  induction l with
  | nil => intro i v q h; simp [setAtV] at h
  | cons p ps ih =>
      intro i v q h
      cases i with
      | zero =>
          rcases (by simpa [setAtV] using h : q = v ∨ q ∈ ps) with h1 | h1
          · exact Or.inr h1
          · exact Or.inl (by simp [h1])
      | succ j =>
          rcases (by simpa [setAtV] using h : q = p ∨ q ∈ setAtV ps j v) with h1 | h1
          · exact Or.inl (by simp [h1])
          · rcases ih j v q h1 with h2 | h2
            · exact Or.inl (by simp [h2])
            · exact Or.inr h2

/-- After a successful Check at table bet 0 (with the per-round bets
nonnegative, as in every reachable state) that does not advance the round,
the turn pointer does not move: the post-check eligible set is empty. -/
theorem process_check_pointer (g : GameState) (pid : String) (amt : Int) (m : String)
    (g' : GameState)
    (hb : g.current_bet = 0)
    (hnn : ∀ p, p ∈ g.players → 0 ≤ p.current_bet)
    (h4 : g.round = "preflop" ∨ g.round = "flop" ∨ g.round = "turn" ∨
      g.round = "river")
    (h : process_action g pid Action.check amt = (ActionResult.ok m, g'))
    (hnc : g'.round = g.round) :
    g'.current_player = g.current_player := by
  unfold process_action at h
  cases hfind : findPlayerIdx g.players pid with
  | none => rw [hfind] at h; simp at h
  | some ip =>
      obtain ⟨idx, player⟩ := ip
      rw [hfind] at h
      dsimp only at h
      by_cases h1 : idx ≠ g.current_player
      · rw [if_pos h1] at h; simp at h
      rw [if_neg h1] at h
      by_cases h2 : (!player.is_active) = true
      · rw [if_pos h2] at h; simp at h
      rw [if_neg h2] at h
      by_cases h3 : player.is_all_in = true
      · rw [if_pos h3] at h; simp at h
      rw [if_neg h3] at h
      by_cases hch : player.chips ≤ 0
      · rw [if_pos hch] at h; simp at h
      rw [if_neg hch] at h
      obtain ⟨hidx, hget, -⟩ := findPlayerIdx_spec pid g.players idx player hfind
      by_cases hc : player.current_bet < g.current_bet
      · have happ : apply_action g pid idx player Action.check amt =
            (ActionResult.err "Cannot check when there's a bet to call. Use 'call' or 'fold'", g) := by
          unfold apply_action
          dsimp only
          rw [if_pos hc]
        rw [happ] at h
        dsimp only at h
        simp at h
      · have happ : apply_action g pid idx player Action.check amt =
            (ActionResult.ok (player.name ++ " checked"),
             { g with players := (setAtV g.players idx
                { player with has_acted_this_round := true }) }) := by
          unfold apply_action
          dsimp only
          rw [if_neg hc]
        rw [happ] at h
        dsimp only at h
        injection h with hm hg'
        have hemp : eligibleIdx { g with players := (setAtV g.players idx
            { player with has_acted_this_round := true }) } = [] := by
          apply eligibleIdx_empty_of_nonneg
          · show g.current_bet ≤ 0
            omega
          · intro q hq
            rcases mem_setAtV_cases _ _ _ _ hq with hql | hqv
            · exact hnn q hql
            · rw [hqv]
              show 0 ≤ player.current_bet
              have : g.players.getD idx default ∈ g.players := getD_mem_of_lt _ _ hidx
              rw [hget] at this
              exact hnn player this
        rw [next_player_of_empty _ hemp] at hg'
        by_cases hrc : is_round_complete { g with players := (setAtV g.players idx
            { player with has_acted_this_round := true }) } = true
        · rw [if_pos hrc] at hg'
          exfalso
          have hchg := advance_round_changes { g with players := (setAtV g.players idx
            { player with has_acted_this_round := true }) } h4
          rw [hg'] at hchg
          exact hchg hnc
        · rw [if_neg hrc] at hg'
          rw [← hg']

/-- Flop with table bet 0, three active players with chips, none of whom has
acted; seat 0 (`w1`) is to act. -/
def stC6 : GameState :=
  { players :=
      [{ mkP "w1" "W1" 500 [⟨14, .spades⟩, ⟨9, .diamonds⟩] 0 100 0 with
           has_acted_this_round := false },
       { mkP "w2" "W2" 500 [⟨13, .spades⟩, ⟨9, .clubs⟩] 0 100 1 with
           has_acted_this_round := false },
       { mkP "w3" "W3" 500 [⟨12, .spades⟩, ⟨9, .hearts⟩] 0 100 2 with
           has_acted_this_round := false }]
    community_cards := [⟨2, .hearts⟩, ⟨3, .diamonds⟩, ⟨7, .clubs⟩]
    pot := 300, current_bet := 0, dealer_position := 0, current_player := 0
    round := "flop", deck := [⟨4, .hearts⟩, ⟨5, .hearts⟩]
    small_blind := 10, big_blind := 20, hand_number := 1
    last_raise_amount := 0, minimum_raise := 10 }

/-- Claim C6 fails on the code: in `stC6`, seat 0 checks successfully while
seats 1 and 2 — active, not all-in, with chips — have not yet acted, but the
turn pointer stays on seat 0 (whose player has now acted) instead of
advancing to a player who still owes action: with table bet 0 nobody
satisfies `current_bet < current_bet_table`, so `_next_player` never moves. -/
theorem claim_C6_counterexample :
    (process_action stC6 "w1" Action.check 0).1 = ActionResult.ok "W1 checked" ∧
      (process_action stC6 "w1" Action.check 0).2.round = "flop" ∧
      (process_action stC6 "w1" Action.check 0).2.current_player = 0 ∧
      ((process_action stC6 "w1" Action.check 0).2.players.getD 0 default).has_acted_this_round
        = true ∧
      (((process_action stC6 "w1" Action.check 0).2.players.getD 1 default).is_active = true ∧
        ((process_action stC6 "w1" Action.check 0).2.players.getD 1 default).is_all_in = false ∧
        (0 : Int) < ((process_action stC6 "w1" Action.check 0).2.players.getD 1 default).chips ∧
        ((process_action stC6 "w1" Action.check 0).2.players.getD 1 default).has_acted_this_round
          = false) := by
  refine ⟨by decide, by decide, by decide, by decide, by decide, by decide, by decide⟩

/-- Claim C6 amended: `_next_player` advances the pointer clockwise to the
first player who is active, not all-in, with chips, AND whose `current_bet`
is below the table bet; when no such player exists the pointer does not move
at all — in particular, after a successful Check at table bet 0 that does not
complete the round, the pointer remains on the checker rather than advancing
to a not-yet-acted player. -/
theorem claim_C6_turn_pointer_amended (g : GameState) :
    (eligibleIdx g = [] → next_player g = g) ∧
    (eligibleIdx g ≠ [] →
      (next_player g).current_player ∈ eligibleIdx g ∧
      ∃ off, off < g.players.length ∧
        (next_player g).current_player
          = (g.current_player + 1 + off) % g.players.length ∧
        ∀ off2, off2 < off →
          ((g.current_player + 1 + off2) % g.players.length) ∉ eligibleIdx g) ∧
    (∀ (pid : String) (amt : Int) (m : String) (g' : GameState),
      g.current_bet = 0 → (∀ p, p ∈ g.players → 0 ≤ p.current_bet) →
      (g.round = "preflop" ∨ g.round = "flop" ∨ g.round = "turn" ∨
        g.round = "river") →
      process_action g pid Action.check amt = (ActionResult.ok m, g') →
      g'.round = g.round →
      g'.current_player = g.current_player) :=
  ⟨next_player_of_empty g, next_player_of_ne g,
   fun pid amt m g' hb hnn h4 h hnc => process_check_pointer g pid amt m g' hb hnn h4 h hnc⟩

/-- Witness for the amended C6 at concrete inputs: with the empty eligible set
of `stC6` the pointer stays; in `stC3` (where `p2` owes action against a bet
of 20) the pointer characterization holds; and the concrete Check in `stC6`
keeps the pointer on seat 0. -/
theorem claim_C6_witness :
    (eligibleIdx stC6 = [] ∧ next_player stC6 = stC6) ∧
    (eligibleIdx stC3 ≠ [] ∧ (next_player stC3).current_player ∈ eligibleIdx stC3 ∧
      ∃ off, off < stC3.players.length ∧
        (next_player stC3).current_player
          = (stC3.current_player + 1 + off) % stC3.players.length ∧
        ∀ off2, off2 < off →
          ((stC3.current_player + 1 + off2) % stC3.players.length) ∉ eligibleIdx stC3) ∧
    ((process_action stC6 "w1" Action.check 0).2.round = stC6.round ∧
      (process_action stC6 "w1" Action.check 0).2.current_player = stC6.current_player) := by
  have hemp : eligibleIdx stC6 = [] := by decide
  have hne3 : eligibleIdx stC3 ≠ [] := by decide
  have hstep : process_action stC6 "w1" Action.check 0
      = (ActionResult.ok "W1 checked", (process_action stC6 "w1" Action.check 0).2) := by
    decide
  refine ⟨⟨hemp, (claim_C6_turn_pointer_amended stC6).1 hemp⟩,
    ⟨hne3, (claim_C6_turn_pointer_amended stC3).2.1 hne3⟩,
    ⟨by decide, (claim_C6_turn_pointer_amended stC6).2.2 "w1" 0 "W1 checked"
      (process_action stC6 "w1" Action.check 0).2 rfl (by decide)
      (Or.inr (Or.inl rfl)) hstep (by decide)⟩⟩

/-! ### Claim C9: view redaction / noninterference -/

/-- Two players agree on every field except possibly their hole cards, and
agree on those too when the player is `pid` (the viewer). -/
def samePlayerExceptCards (pid : String) (p q : Player) : Prop :=
  p.id = q.id ∧ p.name = q.name ∧ p.chips = q.chips ∧ p.current_bet = q.current_bet ∧
    p.total_bet = q.total_bet ∧ p.is_active = q.is_active ∧ p.is_all_in = q.is_all_in ∧
    p.position = q.position ∧ p.has_acted_this_round = q.has_acted_this_round ∧
    (p.id = pid → p.cards = q.cards)

/-- Two game states differ at most in the hole cards of players other than
`pid` (the deck may also differ — it is not part of any view). -/
def viewEquiv (pid : String) (g g' : GameState) : Prop :=
  g.community_cards = g'.community_cards ∧ g.pot = g'.pot ∧
    g.current_bet = g'.current_bet ∧ g.round = g'.round ∧
    g.hand_number = g'.hand_number ∧ g.current_player = g'.current_player ∧
    List.Forall₂ (samePlayerExceptCards pid) g.players g'.players

theorem findPlayerIdx_forall2 (pid : String) :
    ∀ {l1 l2 : List Player}, List.Forall₂ (samePlayerExceptCards pid) l1 l2 →
      (findPlayerIdx l1 pid = none ∧ findPlayerIdx l2 pid = none) ∨
      (∃ i p q, findPlayerIdx l1 pid = some (i, p) ∧
        findPlayerIdx l2 pid = some (i, q) ∧ samePlayerExceptCards pid p q) := by
  intro l1 l2 hrel
  induction hrel with
  | nil => exact Or.inl ⟨rfl, rfl⟩
  | @cons p q l1t l2t hpq hrest ih =>
      by_cases hid : (p.id == pid)
      · have hqid : (q.id == pid) = true := by
          rw [show q.id = p.id from hpq.1.symm]
          exact hid
        exact Or.inr ⟨0, p, q, by rw [findPlayerIdx, if_pos hid],
          by rw [findPlayerIdx, if_pos hqid], hpq⟩
      · have hqid : ¬ ((q.id == pid) = true) := by
          rw [show q.id = p.id from hpq.1.symm]
          exact hid
        rcases ih with ⟨h1, h2⟩ | ⟨i, p1, q1, h1, h2, h3⟩
        · refine Or.inl ⟨?_, ?_⟩
          · rw [findPlayerIdx, if_neg hid, h1]
            rfl
          · rw [findPlayerIdx, if_neg hqid, h2]
            rfl
        · refine Or.inr ⟨i + 1, p1, q1, ?_, ?_, h3⟩
          · rw [findPlayerIdx, if_neg hid, h1]
            rfl
          · rw [findPlayerIdx, if_neg hqid, h2]
            rfl

theorem map_publicInfo_forall2 (pid : String) :
    ∀ {l1 l2 : List Player}, List.Forall₂ (samePlayerExceptCards pid) l1 l2 →
      l1.map publicInfo = l2.map publicInfo := by
  intro l1 l2 hrel
  induction hrel with
  | nil => rfl
  | @cons p q l1t l2t hpq hrest ih =>
      obtain ⟨e1, e2, e3, e4, e5, e6, e7, e8, e9, e10⟩ := hpq
      simp only [List.map_cons, ih, publicInfo, e2, e3, e4, e6, e7]

/-- Claim C9: `get_game_state_for_player pid` exposes the viewer's own hole
cards (as card strings) and public table state, and is invariant under any
change to the other players' hole cards: two states related by `viewEquiv pid`
produce identical views for `pid`. -/
theorem claim_C9_view_redaction (g g' : GameState) (pid : String) (i : Nat) (p : Player)
    (hfind : findPlayerIdx g.players pid = some (i, p))
    (hequiv : viewEquiv pid g g') :
    ((get_game_state_for_player g pid).isSome = true ∧
      ∀ v, get_game_state_for_player g pid = some v →
        v.your_cards = p.cards.map cardStr) ∧
      get_game_state_for_player g pid = get_game_state_for_player g' pid := by
  obtain ⟨hcc, hpot, hcb, hrd, hhn, hcp, hrel⟩ := hequiv
  constructor
  · constructor
    · unfold get_game_state_for_player
      rw [hfind]
      rfl
    · intro v hv
      unfold get_game_state_for_player at hv
      rw [hfind] at hv
      have hveq := Option.some.inj hv
      rw [← hveq]
  · rcases findPlayerIdx_forall2 pid hrel with ⟨h1, _⟩ | ⟨j, p1, q1, h1, h2, h3⟩
    · rw [hfind] at h1
      simp at h1
    · have hj := h1.symm.trans hfind
      have hji : j = i := congrArg Prod.fst (Option.some.inj hj)
      have hpp : p1 = p := congrArg Prod.snd (Option.some.inj hj)
      subst hji
      subst hpp
      obtain ⟨e1, e2, e3, e4, e5, e6, e7, e8, e9, e10⟩ := h3
      have hpid : p1.id = pid := (findPlayerIdx_spec pid g.players j p1 hfind).2.2
      have hcards : p1.cards = q1.cards := e10 hpid
      unfold get_game_state_for_player
      rw [hfind, h2]
      simp only [Option.some.injEq]
      rw [map_publicInfo_forall2 pid hrel]
      rw [hcc, hpot, hcb, hrd, hhn, hcp, hcards, e3, e4, e5]

/-- `stC6` with `w2`'s hole cards replaced — everything `w1` can see is
unchanged. -/
def stC9b : GameState :=
  { stC6 with players :=
      [{ mkP "w1" "W1" 500 [⟨14, .spades⟩, ⟨9, .diamonds⟩] 0 100 0 with
           has_acted_this_round := false },
       { mkP "w2" "W2" 500 [⟨5, .clubs⟩, ⟨6, .spades⟩] 0 100 1 with
           has_acted_this_round := false },
       { mkP "w3" "W3" 500 [⟨12, .spades⟩, ⟨9, .hearts⟩] 0 100 2 with
           has_acted_this_round := false }] }

/-- Witness for C9 at concrete inputs: `w1`'s view of `stC6` shows `w1`'s own
cards, and replacing `w2`'s hole cards (`stC9b`) leaves `w1`'s view
identical. -/
theorem claim_C9_witness :
    findPlayerIdx stC6.players "w1"
        = some (0, stC6.players.getD 0 default) ∧
      viewEquiv "w1" stC6 stC9b ∧
      ((get_game_state_for_player stC6 "w1").isSome = true ∧
        ∀ v, get_game_state_for_player stC6 "w1" = some v →
          v.your_cards = (stC6.players.getD 0 default).cards.map cardStr) ∧
      get_game_state_for_player stC6 "w1" = get_game_state_for_player stC9b "w1" := by
  have hfind : findPlayerIdx stC6.players "w1" = some (0, stC6.players.getD 0 default) := by
    decide
  have hequiv : viewEquiv "w1" stC6 stC9b := by
    refine ⟨rfl, rfl, rfl, rfl, rfl, rfl, ?_⟩
    refine List.Forall₂.cons ?_ (List.Forall₂.cons ?_ (List.Forall₂.cons ?_ List.Forall₂.nil))
    · exact ⟨rfl, rfl, rfl, rfl, rfl, rfl, rfl, rfl, rfl, fun _ => rfl⟩
    · exact ⟨rfl, rfl, rfl, rfl, rfl, rfl, rfl, rfl, rfl, fun h => absurd h (by decide)⟩
    · exact ⟨rfl, rfl, rfl, rfl, rfl, rfl, rfl, rfl, rfl, fun _ => rfl⟩
  have := claim_C9_view_redaction stC6 stC9b "w1" 0 (stC6.players.getD 0 default)
    hfind hequiv
  exact ⟨hfind, hequiv, this.1, this.2⟩

/-! ### Claim C10: hole-card dealing and zero-chip players -/

/-- The dealing condition of `_deal_hole_cards`: active with chips. -/
def needy (p : Player) : Bool :=
  p.is_active && decide (0 < p.chips)

/-- How many players receive a card in one dealing pass. -/
def needyCount (ps : List Player) : Nat :=
  (ps.filter needy).length

theorem forall2_trans {R S T : Player → Player → Prop}
    (h : ∀ a b c, R a b → S b c → T a c) :
    ∀ {l1 l2 l3 : List Player}, List.Forall₂ R l1 l2 → List.Forall₂ S l2 l3 →
      List.Forall₂ T l1 l3 := by
  intro l1 l2 l3 h12
  induction h12 generalizing l3 with
  | nil => intro h23; cases h23; exact List.Forall₂.nil
  | cons hr hrest ih =>
      intro h23
      cases h23 with
      | cons hs hsrest => exact List.Forall₂.cons (h _ _ _ hr hs) (ih hsrest)

theorem forall2_imp_mem {R S : Player → Player → Prop} :
    ∀ {l1 l2 : List Player}, List.Forall₂ R l1 l2 →
      (∀ a, a ∈ l1 → ∀ b, R a b → S a b) → List.Forall₂ S l1 l2 := by
  intro l1 l2 h
  induction h with
  | nil => intro _; exact List.Forall₂.nil
  | @cons a b l1t l2t hr hrest ih =>
      intro himp
      exact List.Forall₂.cons (himp a (by simp) b hr)
        (ih (fun x hx y hr2 => himp x (by simp [hx]) y hr2))

theorem dealOneEach_spec :
    ∀ (ps : List Player) (deck : List Card), needyCount ps ≤ deck.length →
      List.Forall₂ (fun p q => q.id = p.id ∧ q.chips = p.chips ∧
        q.is_active = p.is_active ∧
        q.cards.length = p.cards.length + (if needy p = true then 1 else 0)) ps
          (dealOneEach ps deck).1 ∧
      (dealOneEach ps deck).2.length = deck.length - needyCount ps := by
  intro ps
  induction ps with
  | nil =>
      intro deck h
      exact ⟨List.Forall₂.nil, by simp [dealOneEach, needyCount]⟩
  | cons p ps ih =>
      intro deck h
      by_cases hp : needy p = true
      · have hcount : needyCount (p :: ps) = needyCount ps + 1 := by
          simp [needyCount, List.filter_cons, hp]
        cases deck with
        | nil =>
            rw [hcount] at h
            simp at h
        | cons c deck' =>
            have h' : needyCount ps ≤ deck'.length := by
              rw [hcount] at h
              simpa using h
            obtain ⟨hrel, hlen⟩ := ih deck' h'
            have hp' : (p.is_active && decide (0 < p.chips)) = true := hp
            unfold dealOneEach
            rw [if_pos hp']
            dsimp only
            constructor
            · refine List.Forall₂.cons ⟨rfl, rfl, rfl, ?_⟩ hrel
              rw [if_pos hp]
              simp [deal_cards]
            · show (dealOneEach ps deck').2.length = (c :: deck').length - needyCount (p :: ps)
              rw [hlen, hcount]
              simp
      · have hcount : needyCount (p :: ps) = needyCount ps := by
          simp [needyCount, List.filter_cons, hp]
        have h' : needyCount ps ≤ deck.length := by omega
        obtain ⟨hrel, hlen⟩ := ih deck h'
        have hp' : ¬ ((p.is_active && decide (0 < p.chips)) = true) := hp
        unfold dealOneEach
        rw [if_neg hp']
        dsimp only
        constructor
        · refine List.Forall₂.cons ⟨rfl, rfl, rfl, ?_⟩ hrel
          rw [if_neg hp]
          omega
        · rw [hlen, hcount]

theorem needyCount_of_forall2 {l1 l2 : List Player}
    (h : List.Forall₂ (fun p q => q.id = p.id ∧ q.chips = p.chips ∧
      q.is_active = p.is_active ∧
      q.cards.length = p.cards.length + (if needy p = true then 1 else 0)) l1 l2) :
    needyCount l2 = needyCount l1 := by
  induction h with
  | nil => rfl
  | @cons a b l1t l2t hab hrest ih =>
      have hn : needy b = needy a := by
        unfold needy
        rw [hab.2.1, hab.2.2.1]
      by_cases ha : needy a = true
      · simp [needyCount, List.filter_cons, hn, ha] at ih ⊢
        exact ih
      · simp [needyCount, List.filter_cons, hn, ha] at ih ⊢
        exact ih

theorem deal_hole_cards_spec (g : GameState)
    (hdeck : 2 * needyCount g.players ≤ g.deck.length) :
    List.Forall₂ (fun p q => q.id = p.id ∧ q.chips = p.chips ∧
      q.is_active = p.is_active ∧
      q.cards.length = p.cards.length + (if needy p = true then 2 else 0))
      g.players (deal_hole_cards g).players := by
  have h1 : needyCount g.players ≤ g.deck.length := by omega
  obtain ⟨hrel1, hlen1⟩ := dealOneEach_spec g.players g.deck h1
  have hcnt : needyCount (dealOneEach g.players g.deck).1 = needyCount g.players :=
    needyCount_of_forall2 hrel1
  have h2 : needyCount (dealOneEach g.players g.deck).1
      ≤ (dealOneEach g.players g.deck).2.length := by
    rw [hcnt, hlen1]
    omega
  obtain ⟨hrel2, -⟩ := dealOneEach_spec (dealOneEach g.players g.deck).1
    (dealOneEach g.players g.deck).2 h2
  unfold deal_hole_cards
  dsimp only
  refine forall2_trans (fun a b c hab hbc => ⟨by rw [hbc.1, hab.1],
    by rw [hbc.2.1, hab.2.1], by rw [hbc.2.2.1, hab.2.2.1], ?_⟩) hrel1 hrel2
  have hneedy : needy b = needy a := by
    unfold needy
    rw [hab.2.1, hab.2.2.1]
  rw [hbc.2.2.2, hab.2.2.2, hneedy]
  by_cases hna : needy a = true
  · simp [hna]
  · simp [hna]

/-- Players agree on id, cards and activity (what blind posting preserves). -/
def idCardsActive (p q : Player) : Prop :=
  q.id = p.id ∧ q.cards = p.cards ∧ q.is_active = p.is_active

theorem forall2_refl_idCardsActive (l : List Player) : List.Forall₂ idCardsActive l l := by
  induction l with
  | nil => exact List.Forall₂.nil
  | cons p ps ih => exact List.Forall₂.cons ⟨rfl, rfl, rfl⟩ ih

theorem setAtV_rel (l : List Player) (i : Nat) (v : Player)
    (hv : v.id = (l.getD i default).id ∧ v.cards = (l.getD i default).cards ∧
      v.is_active = (l.getD i default).is_active) :
    List.Forall₂ idCardsActive l (setAtV l i v) := by
  induction l generalizing i with
  | nil => exact List.Forall₂.nil
  | cons p ps ih =>
      cases i with
      | zero =>
          exact List.Forall₂.cons (by simpa [List.getD] using hv)
            (forall2_refl_idCardsActive ps)
      | succ j =>
          exact List.Forall₂.cons ⟨rfl, rfl, rfl⟩ (ih j (by simpa [List.getD] using hv))

theorem postOneBlind_rel (g : GameState) (pos : Nat) (b : Int) :
    List.Forall₂ idCardsActive g.players (postOneBlind g pos b).2.players := by
  unfold postOneBlind
  dsimp only
  exact setAtV_rel _ _ _ ⟨rfl, rfl, rfl⟩

theorem post_blinds_rel (g : GameState) :
    List.Forall₂ idCardsActive g.players (post_blinds g).players := by
  rw [(post_blinds_fields g).1]
  unfold post_blinds_core
  dsimp only
  exact forall2_trans (fun a b c hab hbc => ⟨by rw [hbc.1, hab.1],
    by rw [hbc.2.1, hab.2.1], by rw [hbc.2.2, hab.2.2]⟩)
    (postOneBlind_rel g _ _) (postOneBlind_rel _ _ _)

theorem build_players_fields (e : PokerEngine) (ids names : List String)
    (sc : Int) (pres : Bool) :
    ∀ p, p ∈ build_players e ids names sc pres → p.is_active = true ∧ p.cards = [] := by
  intro p hp
  unfold build_players at hp
  obtain ⟨x, hx, heq⟩ := List.mem_map.mp hp
  rw [← heq]
  exact ⟨rfl, rfl⟩

/-- Showdown where the cardless-but-active `r1` ties `r2` on the royal-flush
board and splits the pot. -/
def stC10 : GameState :=
  { players :=
      [mkP "r1" "R1" 500 [] 0 100 0,
       mkP "r2" "R2" 500 [⟨2, .spades⟩, ⟨3, .clubs⟩] 0 100 1]
    community_cards :=
      [⟨10, .hearts⟩, ⟨11, .hearts⟩, ⟨12, .hearts⟩, ⟨13, .hearts⟩, ⟨14, .hearts⟩]
    pot := 200, current_bet := 0, dealer_position := 0, current_player := 0
    round := "showdown", deck := [], small_blind := 10, big_blind := 20, hand_number := 1
    last_raise_amount := 0, minimum_raise := 10 }

set_option maxRecDepth 4000 in
/-- Claim C10: `start_new_hand` deals exactly 2 hole cards to every player
created with positive chips and none to a player created with 0 chips, while
every player starts `is_active = true`; and a never-folded cardless player is
still evaluated at showdown on the community cards alone — in `stC10` the
cardless active `r1` ties the royal-flush board and wins half the pot. -/
theorem claim_C10_zero_chip_players :
    (∀ (e : PokerEngine) (deck : List Card) (ids names : List String) (sc : Int)
        (pres : Bool),
      2 * needyCount (build_players e ids names sc pres) ≤ deck.length →
      List.Forall₂ (fun p q => q.id = p.id ∧ q.is_active = true ∧
          q.cards.length = (if 0 < p.chips then 2 else 0))
        (build_players e ids names sc pres)
        (start_new_hand e deck ids names sc pres).2.players) ∧
    ((determine_winner stC10).players.map (fun p => (p.id, p.chips, p.cards.length))
        = [("r1", 600, 0), ("r2", 600, 2)] ∧
      (determine_winner stC10).pot = 0 ∧
      (stC10.players.getD 0 default).is_active = true) := by
  constructor
  · intro e deck ids names sc pres hdeck
    unfold start_new_hand
    dsimp only
    have hdeal := deal_hole_cards_spec
      { players := build_players e ids names sc pres
        community_cards := []
        pot := 0
        current_bet := 0
        dealer_position :=
          if e.hand_number + 1 > 1 && 0 < (build_players e ids names sc pres).length then
            (e.dealer_position + 1) % (build_players e ids names sc pres).length
          else if e.hand_number + 1 == 1 then 0
          else e.dealer_position
        current_player := 0
        round := "preflop"
        deck := deck
        small_blind := e.small_blind
        big_blind := e.big_blind
        hand_number := e.hand_number + 1
        last_raise_amount := 0
        minimum_raise := e.big_blind - e.small_blind } hdeck
    have hpb := post_blinds_rel (deal_hole_cards
      { players := build_players e ids names sc pres
        community_cards := []
        pot := 0
        current_bet := 0
        dealer_position :=
          if e.hand_number + 1 > 1 && 0 < (build_players e ids names sc pres).length then
            (e.dealer_position + 1) % (build_players e ids names sc pres).length
          else if e.hand_number + 1 == 1 then 0
          else e.dealer_position
        current_player := 0
        round := "preflop"
        deck := deck
        small_blind := e.small_blind
        big_blind := e.big_blind
        hand_number := e.hand_number + 1
        last_raise_amount := 0
        minimum_raise := e.big_blind - e.small_blind })
    have hcomp := forall2_trans (fun a b c hab hbc =>
      (⟨by rw [hbc.1, hab.1], by rw [hbc.2.2, hab.2.2.1],
        by rw [hbc.2.1]; exact hab.2.2.2⟩ :
        c.id = a.id ∧ c.is_active = a.is_active ∧
          c.cards.length = a.cards.length + (if needy a = true then 2 else 0)))
      hdeal hpb
    refine forall2_imp_mem hcomp (fun a ha b hab => ?_)
    obtain ⟨hact, hcards⟩ := build_players_fields e ids names sc pres a ha
    refine ⟨hab.1, by rw [hab.2.1, hact], ?_⟩
    rw [hab.2.2, hcards]
    have hneedy : needy a = decide (0 < a.chips) := by
      unfold needy
      rw [hact]
      simp
    rw [hneedy]
    by_cases hc : 0 < a.chips
    · simp [hc]
    · simp [hc]
  · exact ⟨by decide, by decide, rfl⟩

/-- A finished previous hand in which `p2` busted to 0 chips. -/
def egPrev : GameState :=
  { players := [mkP "p1" "P1" 2000 [] 0 0 0, mkP "p2" "P2" 0 [] 0 0 1]
    community_cards := [], pot := 0, current_bet := 0, dealer_position := 0
    current_player := 0, round := "showdown", deck := [], small_blind := 10
    big_blind := 20, hand_number := 1, last_raise_amount := 0, minimum_raise := 10 }

def egEngine2 : PokerEngine := { egEngine with game_state := some egPrev, hand_number := 1 }

/-- Witness for C10 at concrete inputs: continuing a session
(`preserve_chips = true`) where `p2` busted to 0 chips, the new hand gives
`p1` two cards and `p2` none while both start active. -/
theorem claim_C10_witness :
    2 * needyCount (build_players egEngine2 ["p1", "p2"] ["P1", "P2"] 1000 true)
        ≤ egDeck.length ∧
      List.Forall₂ (fun p q => q.id = p.id ∧ q.is_active = true ∧
          q.cards.length = (if 0 < p.chips then 2 else 0))
        (build_players egEngine2 ["p1", "p2"] ["P1", "P2"] 1000 true)
        (start_new_hand egEngine2 egDeck ["p1", "p2"] ["P1", "P2"] 1000 true).2.players :=
  ⟨by decide, claim_C10_zero_chip_players.1 egEngine2 egDeck ["p1", "p2"] ["P1", "P2"]
    1000 true (by decide)⟩

end Poker
